import Mathlib

/-
Verification of the FSM extraction core of fsm_viz.

The TypeScript sources are shallowly embedded: JavaScript strings become
Lean `String`s (processed as `List Char`), the regular-expression based
scanners of the source are reimplemented as explicit character scanners
with the exact same matching semantics (leftmost match, greedy word runs,
`lastIndex` style resumption after each global match), tree-sitter syntax
nodes become a rose tree with stored `type`, `text` and `line` fields, and
JavaScript numbers in the confidence computation become exact rationals.
Scanners that resume after the previous match use a character-count fuel
(initialised to the input length, which is always sufficient) so that all
string-level functions are structurally recursive and kernel-reducible.
-/

/-! ### Character classes (JavaScript regex semantics, ASCII inputs) -/

/-- JS `\w`: ASCII letters, digits and underscore. -/
def isWordChar (c : Char) : Bool :=
  c.isAlpha || c.isDigit || c == '_'

/-- JS `\s` restricted to the whitespace forms that occur in HDL source. -/
def isWsChar (c : Char) : Bool :=
  c == ' ' || c == '\t' || c == '\n' || c == '\r'

/-- Character class `[A-Z_]`. -/
def isUpperStartChar (c : Char) : Bool :=
  (c.isUpper && c.isAlpha) || c == '_'

/-- Character class `[A-Z0-9_]`. -/
def isUpperWordChar (c : Char) : Bool :=
  (c.isUpper && c.isAlpha) || c.isDigit || c == '_'

/-- Case-insensitive character comparison (`/i` regex flag). -/
def charCaseless (a b : Char) : Bool :=
  a.toLower == b.toLower

/-! ### List-of-characters utilities -/

/-- Maximal `\w+` run at the head: returns the run and the rest. -/
def takeWordRun : List Char → List Char × List Char
  | [] => ([], [])
  | c :: cs =>
    if isWordChar c then
      let (r, rest) := takeWordRun cs
      (c :: r, rest)
    else ([], c :: cs)

/-- Drop leading whitespace (`\s*`). -/
def skipWs (cs : List Char) : List Char :=
  cs.dropWhile isWsChar

/-- JS `String.prototype.trim`. -/
def trimChars (cs : List Char) : List Char :=
  ((cs.dropWhile isWsChar).reverse.dropWhile isWsChar).reverse

/-- Literal match at the head of the input. -/
def matchLit : List Char → List Char → Option (List Char)
  | [], cs => some cs
  | _, [] => none
  | p :: ps, c :: cs => if p == c then matchLit ps cs else none

/-- Case-insensitive literal match at the head of the input. -/
def matchLitCaseless : List Char → List Char → Option (List Char)
  | [], cs => some cs
  | _, [] => none
  | p :: ps, c :: cs => if charCaseless p c then matchLitCaseless ps cs else none

/-- Does `pat` occur at the head? -/
def headIs (pat cs : List Char) : Bool :=
  (matchLit pat cs).isSome

/-- Substring containment (`String.prototype.includes`). -/
def containsSub (pat : List Char) : List Char → Bool
  | [] => (matchLit pat []).isSome
  | c :: cs => (matchLit pat (c :: cs)).isSome || containsSub pat cs

/-- Case-insensitive substring containment. -/
def containsSubCaseless (pat : List Char) : List Char → Bool
  | [] => (matchLitCaseless pat []).isSome
  | c :: cs => (matchLitCaseless pat (c :: cs)).isSome || containsSubCaseless pat cs

/-- `String.prototype.indexOf` for a substring, as an option. -/
def indexOfSub (pat : List Char) : List Char → Option Nat
  | [] => if (matchLit pat []).isSome then some 0 else none
  | c :: cs =>
    if (matchLit pat (c :: cs)).isSome then some 0
    else (indexOfSub pat cs).map (· + 1)

/-- Index of the first occurrence of a character, as an option. -/
def indexOfChar (ch : Char) : List Char → Option Nat
  | [] => none
  | c :: cs => if c == ch then some 0 else (indexOfChar ch cs).map (· + 1)

/-- Split on a separator character (JS `String.prototype.split`). -/
def splitOnChar (sep : Char) : List Char → List (List Char)
  | [] => [[]]
  | c :: cs =>
    let rest := splitOnChar sep cs
    if c == sep then [] :: rest
    else
      match rest with
      | [] => [[c]]
      | r :: rs => (c :: r) :: rs

/-- JS `String.prototype.toLowerCase` on a character list. -/
def lowerChars (cs : List Char) : List Char :=
  cs.map Char.toLower

/-- Maximal `\w` runs of the input, in order; `cur` is the reversed run
being accumulated. -/
def wordRunsAux (cur : List Char) : List Char → List (List Char)
  | [] => if cur.isEmpty then [] else [cur.reverse]
  | c :: cs =>
    if isWordChar c then wordRunsAux (c :: cur) cs
    else if cur.isEmpty then wordRunsAux [] cs
    else cur.reverse :: wordRunsAux [] cs

/-! ### String wrappers -/

def strToList (s : String) : List Char := s.toList

def strOfList (cs : List Char) : String := String.mk cs

/-- JS `trim` on strings. -/
def strTrim (s : String) : String := strOfList (trimChars (strToList s))

/-- JS `includes` on strings. -/
def strContains (s pat : String) : Bool := containsSub (strToList pat) (strToList s)

/-- JS `toLowerCase` on strings. -/
def strLower (s : String) : String := strOfList (lowerChars (strToList s))

/-! ### The assignment scanner

The source repeatedly runs the global regex `(\w+)\s*(<=|=)\s*([^;]+);`
(`extractAssignmentsFromText`, the direct-assignment scan of
`extractAssignmentsAndConditions`, and `parseAssignments` in the output
extractor all use this exact pattern).  A match anchored at a position
consists of a maximal word run, optional whitespace, `<=` or `=`,
optional whitespace, then everything up to (and excluding) the next
semicolon, which must be nonempty, followed by the semicolon.  The JS
engine searches for the leftmost match and resumes after the consumed
match, so text swallowed inside a value is never rescanned. -/

/-- Try to match the assignment pattern anchored at the head.
Returns `(target, isBlocking, trimmedValue)` and the rest after `;`. -/
def matchAssignAt (cs : List Char) : Option ((String × Bool × String) × List Char) :=
  let (run, rest) := takeWordRun cs
  if run.isEmpty then none
  else
    let rest2 := skipWs rest
    let opRes : Option (Bool × List Char) :=
      match rest2 with
      | '<' :: '=' :: r => some (false, r)
      | '=' :: r => some (true, r)
      | _ => none
    match opRes with
    | none => none
    | some (isBlocking, r) =>
      let r2 := skipWs r
      let v := r2.takeWhile (fun c => c != ';')
      if v.isEmpty then none
      else
        match r2.drop v.length with
        | ';' :: tail => some ((strOfList run, isBlocking, strOfList (trimChars v)), tail)
        | _ => none

/-- Global scan for the assignment pattern; the fuel is initialised to the
input length, which bounds the number of scanning steps. -/
def scanAssignAux : Nat → List Char → List (String × Bool × String)
  | 0, _ => []
  | _, [] => []
  | Nat.succ fuel, c :: cs =>
    match matchAssignAt (c :: cs) with
    | some (a, rest) => a :: scanAssignAux fuel rest
    | none => scanAssignAux fuel cs

/-- All matches of `(\w+)\s*(<=|=)\s*([^;]+);` in a string, in order. -/
def scanAssignments (s : String) : List (String × Bool × String) :=
  scanAssignAux (strToList s).length (strToList s)

/-! ### Generic scanning combinators -/

/-- First match of an anchored matcher, scanning left to right
(`String.prototype.match` without the global flag). -/
def scanFirstAux {α : Type} (m : List Char → Option α) : Nat → List Char → Option α
  | 0, _ => none
  | Nat.succ fuel, cs =>
    match m cs with
    | some a => some a
    | none =>
      match cs with
      | [] => none
      | _ :: rest => scanFirstAux m fuel rest

def scanFirst {α : Type} (m : List Char → Option α) (cs : List Char) : Option α :=
  scanFirstAux m (cs.length + 1) cs

/-- Global remove: delete every match, resuming after each match
(JS `String.prototype.replace` with `/g` and an empty replacement).
The matcher returns the rest of the input after the match. -/
def removeAllAux (m : List Char → Option (List Char)) : Nat → List Char → List Char
  | 0, cs => cs
  | _, [] => []
  | Nat.succ fuel, c :: cs =>
    match m (c :: cs) with
    | some rest => removeAllAux m fuel rest
    | none => c :: removeAllAux m fuel cs

def removeAll (m : List Char → Option (List Char)) (cs : List Char) : List Char :=
  removeAllAux m cs.length cs

/-- Global replace: the matcher returns the replacement and the rest. -/
def replaceAllAux (m : List Char → Option (List Char × List Char)) :
    Nat → List Char → List Char
  | 0, cs => cs
  | _, [] => []
  | Nat.succ fuel, c :: cs =>
    match m (c :: cs) with
    | some (rep, rest) => rep ++ replaceAllAux m fuel rest
    | none => c :: replaceAllAux m fuel cs

def replaceAll (m : List Char → Option (List Char × List Char)) (cs : List Char) : List Char :=
  replaceAllAux m cs.length cs

/-- Index of the first position where a case-insensitive literal matches. -/
def findCaselessIdx (pat : List Char) : List Char → Option Nat
  | [] => if (matchLitCaseless pat []).isSome then some 0 else none
  | c :: cs =>
    if (matchLitCaseless pat (c :: cs)).isSome then some 0
    else (findCaselessIdx pat cs).map (· + 1)

/-! ### `if (...)` condition matching

Anchored matcher for `if\s*\(([^)]+)\)` with a case-insensitive `if`
(every use in the source carries the `/i` flag).  Returns the captured
condition (not yet trimmed) and the rest after the closing paren. -/
def matchIfCond (cs : List Char) : Option (List Char × List Char) :=
  match matchLitCaseless ['i', 'f'] cs with
  | none => none
  | some r1 =>
    match skipWs r1 with
    | '(' :: r2 =>
      let cond := r2.takeWhile (fun c => c != ')')
      if cond.isEmpty then none
      else
        match r2.drop cond.length with
        | ')' :: r3 => some (cond, r3)
        | _ => none
    | _ => none

/-- `text.match(/if\s*\(([^)]+)\)/i)`, capture group 1. -/
def findIfCondition (s : String) : Option String :=
  (scanFirst matchIfCond (strToList s)).map (fun r => strOfList r.1)

/-! ### `removeIfBlocks` (transition-builder)

`text.replace(/if\s*\([^)]+\)\s*begin[\s\S]*?end/gi, '')
     .replace(/if\s*\([^)]+\)\s*[^;]+;/gi, '')
     .replace(/else\s*begin[\s\S]*?end/gi, '')
     .replace(/else\s*[^;]+;/gi, '')` -/

/-- `if\s*\([^)]+\)\s*begin[\s\S]*?end` (case-insensitive). -/
def matchIfBeginEnd (cs : List Char) : Option (List Char) :=
  match matchIfCond cs with
  | none => none
  | some (_, r) =>
    match matchLitCaseless ['b', 'e', 'g', 'i', 'n'] (skipWs r) with
    | none => none
    | some r2 =>
      match findCaselessIdx ['e', 'n', 'd'] r2 with
      | none => none
      | some i => some (r2.drop (i + 3))

/-- `if\s*\([^)]+\)\s*[^;]+;` (case-insensitive). -/
def matchIfSemi (cs : List Char) : Option (List Char) :=
  match matchIfCond cs with
  | none => none
  | some (_, r) =>
    match indexOfChar ';' r with
    | none => none
    | some i => if i == 0 then none else some (r.drop (i + 1))

/-- `else\s*begin[\s\S]*?end` (case-insensitive). -/
def matchElseBeginEnd (cs : List Char) : Option (List Char) :=
  match matchLitCaseless ['e', 'l', 's', 'e'] cs with
  | none => none
  | some r =>
    match matchLitCaseless ['b', 'e', 'g', 'i', 'n'] (skipWs r) with
    | none => none
    | some r2 =>
      match findCaselessIdx ['e', 'n', 'd'] r2 with
      | none => none
      | some i => some (r2.drop (i + 3))

/-- `else\s*[^;]+;` (case-insensitive). -/
def matchElseSemi (cs : List Char) : Option (List Char) :=
  match matchLitCaseless ['e', 'l', 's', 'e'] cs with
  | none => none
  | some r =>
    match indexOfChar ';' r with
    | none => none
    | some i => if i == 0 then none else some (r.drop (i + 1))

/-- `removeIfBlocks` from transition-builder. -/
def removeIfBlocks (s : String) : String :=
  let t1 := removeAll matchIfBeginEnd (strToList s)
  let t2 := removeAll matchIfSemi t1
  let t3 := removeAll matchElseBeginEnd t2
  let t4 := removeAll matchElseSemi t3
  strOfList t4

/-! ### `else` detection -/

/-- `/\belse\b/i.test(text)`. -/
def hasElseWordAux : Option Char → List Char → Bool
  | _, [] => false
  | prev, c :: cs =>
    let boundaryBefore := match prev with
      | none => true
      | some p => !isWordChar p
    let here :=
      boundaryBefore &&
        match matchLitCaseless ['e', 'l', 's', 'e'] (c :: cs) with
        | some [] => true
        | some (r :: _) => !isWordChar r
        | none => false
    here || hasElseWordAux (some c) cs

def hasElseWord (s : String) : Bool := hasElseWordAux none (strToList s)

/-- Anchored matcher for `else\s+if\s*\(` (case-insensitive). -/
def matchElseIf (cs : List Char) : Option Unit :=
  match matchLitCaseless ['e', 'l', 's', 'e'] cs with
  | none => none
  | some r =>
    match r with
    | c :: r2 =>
      if isWsChar c then
        match matchLitCaseless ['i', 'f'] (skipWs r2) with
        | none => none
        | some r3 =>
          match skipWs r3 with
          | '(' :: _ => some ()
          | _ => none
      else none
    | [] => none

/-- `/else\s+if\s*\(/i.test(text)`. -/
def hasElseIf (s : String) : Bool :=
  (scanFirst matchElseIf (strToList s)).isSome

/-- `text.indexOf('else')` (case-sensitive), as an option. -/
def indexOfElse (s : String) : Option Nat :=
  indexOfSub ['e', 'l', 's', 'e'] (strToList s)

/-! ### `simplifyCondition` (transition-builder) -/

/-- `/\s+/g → ' '`: collapse every whitespace run to a single space. -/
def collapseWsAux : Bool → List Char → List Char
  | _, [] => []
  | prevWs, c :: cs =>
    if isWsChar c then
      if prevWs then collapseWsAux true cs
      else ' ' :: collapseWsAux true cs
    else c :: collapseWsAux false cs

def collapseWs (cs : List Char) : List Char := collapseWsAux false cs

/-- `\((\w+)\)` → `$1`. -/
def matchParenWord (cs : List Char) : Option (List Char × List Char) :=
  match cs with
  | '(' :: r =>
    let (run, rest) := takeWordRun r
    if run.isEmpty then none
    else
      match rest with
      | ')' :: r2 => some (run, r2)
      | _ => none
  | _ => none

/-- `!!\s*(\w+)` → `$1`. -/
def matchDoubleBang (cs : List Char) : Option (List Char × List Char) :=
  match cs with
  | '!' :: '!' :: r =>
    let (run, rest) := takeWordRun (skipWs r)
    if run.isEmpty then none else some (run, rest)
  | _ => none

/-- `!\s*\(\s*!\s*(\w+)\s*\)` → `$1`. -/
def matchBangParenBang (cs : List Char) : Option (List Char × List Char) :=
  match cs with
  | '!' :: r =>
    match skipWs r with
    | '(' :: r2 =>
      match skipWs r2 with
      | '!' :: r3 =>
        let (run, rest) := takeWordRun (skipWs r3)
        if run.isEmpty then none
        else
          match skipWs rest with
          | ')' :: r4 => some (run, r4)
          | _ => none
      | _ => none
    | _ => none
  | _ => none

/-- `simplifyCondition` from transition-builder: whitespace normalisation,
parentheses around a single word, `!!x`, and `!(!x)`. -/
def simplifyCondition (condition : String) : String :=
  let s1 := trimChars (collapseWs (strToList condition))
  let s2 := replaceAll matchParenWord s1
  let s3 := replaceAll matchDoubleBang s2
  let s4 := replaceAll matchBangParenBang s3
  strOfList s4

/-! ### Default-assignment pattern (transition-builder)

`new RegExp(`${nextStateVarName}\\s*=\\s*${stateVarName}\\s*;`)` tested
against the text of the case statement's parent node. -/
def matchDefaultAssign (nextStateVarName stateVarName : String) (cs : List Char) :
    Option Unit :=
  match matchLit (strToList nextStateVarName) cs with
  | none => none
  | some r1 =>
    match skipWs r1 with
    | '=' :: r2 =>
      match matchLit (strToList stateVarName) (skipWs r2) with
      | none => none
      | some r3 =>
        match skipWs r3 with
        | ';' :: _ => some ()
        | _ => none
    | _ => none

def defaultAssignTest (nextStateVarName stateVarName text : String) : Bool :=
  (scanFirst (matchDefaultAssign nextStateVarName stateVarName) (strToList text)).isSome

/-! ### Upper-case identifier extraction (case labels) -/

/-- First match of `\b([A-Z_][A-Z0-9_]*)\b`. -/
def extractUpperIdentAux : Option Char → List Char → Option String
  | _, [] => none
  | prev, c :: cs =>
    let boundaryBefore := match prev with
      | none => true
      | some p => !isWordChar p
    if boundaryBefore && isUpperStartChar c then
      let run := cs.takeWhile isUpperWordChar
      match cs.drop run.length with
      | [] => some (strOfList (c :: run))
      | r :: _ =>
        if !isWordChar r then some (strOfList (c :: run))
        else extractUpperIdentAux (some c) cs
    else extractUpperIdentAux (some c) cs

def extractUpperIdent (s : String) : Option String :=
  extractUpperIdentAux none (strToList s)

/-- Full-string match of `^[A-Z_][A-Z0-9_]*$` (`inferStatesFromCase`). -/
def upperLabelFull (s : String) : Bool :=
  match strToList s with
  | [] => false
  | c :: cs => isUpperStartChar c && cs.all isUpperWordChar

/-- `/default\s*:/i.test(text)`. -/
def matchDefaultColon (cs : List Char) : Option Unit :=
  match matchLitCaseless ['d', 'e', 'f', 'a', 'u', 'l', 't'] cs with
  | none => none
  | some r =>
    match skipWs r with
    | ':' :: _ => some ()
    | _ => none

def hasDefaultColon (s : String) : Bool :=
  (scanFirst matchDefaultColon (strToList s)).isSome

/-! ### Data model (`types.ts`)

Optional TS fields that default to "absent" are modeled as follows:
`condition`/`rawCondition` become `Option String`; the boolean flags
`isDefault`/`isSelfLoop`/`isImplicit` (absent ≡ false in every use site)
become `Bool`; `elseAssignments`/`nestedConditions`
(`undefined` and `[]` are behaviourally identical at every use site:
both are only consumed by iteration or a `length > 0` guard) become
plain lists, with `[]` standing for `undefined`. -/

/-- Block kind: `'always_ff' | 'always_comb' | 'always'`. -/
inductive SourceBlock : Type where
  | alwaysFF
  | alwaysComb
  | always
deriving DecidableEq, Repr

structure FSMOutput where
  signal : String
  value : String
  line : Nat
deriving DecidableEq, Repr

structure Assignment where
  target : String
  value : String
  line : Nat
  isBlocking : Bool
deriving DecidableEq, Repr

/-- `ConditionalBlock` from `types.ts`: one `if` with its branch
assignments, optional else-assignments and optional nested else-if
blocks. -/
inductive ConditionalBlock : Type where
  | mk (condition : String) (assignments : List Assignment)
       (elseAssignments : List Assignment)
       (nestedConditions : List ConditionalBlock)
       (line : Nat)
deriving Repr

def ConditionalBlock.condition : ConditionalBlock → String
  | .mk c _ _ _ _ => c

def ConditionalBlock.assignments : ConditionalBlock → List Assignment
  | .mk _ a _ _ _ => a

def ConditionalBlock.elseAssignments : ConditionalBlock → List Assignment
  | .mk _ _ e _ _ => e

def ConditionalBlock.nestedConditions : ConditionalBlock → List ConditionalBlock
  | .mk _ _ _ n _ => n

def ConditionalBlock.line : ConditionalBlock → Nat
  | .mk _ _ _ _ l => l

structure CaseItem where
  label : String
  line : Nat
  assignments : List Assignment
  conditions : List ConditionalBlock
deriving Repr

/-- `FSMTransition` from `types.ts` (the unused `priority` field is
omitted; `from`/`to` are Lean keywords, hence the underscores). -/
structure FSMTransition where
  from_ : String
  to_ : String
  condition : Option String := none
  rawCondition : Option String := none
  line : Nat
  isDefault : Bool := false
  isSelfLoop : Bool := false
  isImplicit : Bool := false
  sourceBlock : SourceBlock
  outputs : List FSMOutput
deriving DecidableEq, Repr

/-! ### Syntax tree (`ast-walker.ts`)

A tree-sitter node is modeled as a rose tree carrying the observations
the core actually uses: `node.type`, `node.text` (stored directly rather
than recomputed from a span) and the 1-indexed line of `getNodeLine`. -/

inductive SyntaxNode : Type where
  | mk (type : String) (text : String) (line : Nat) (children : List SyntaxNode)
deriving Repr

def SyntaxNode.type : SyntaxNode → String
  | .mk t _ _ _ => t

def SyntaxNode.text : SyntaxNode → String
  | .mk _ x _ _ => x

def SyntaxNode.line : SyntaxNode → Nat
  | .mk _ _ l _ => l

def SyntaxNode.children : SyntaxNode → List SyntaxNode
  | .mk _ _ _ cs => cs

def getNodeText (node : SyntaxNode) : String := node.text

def getNodeLine (node : SyntaxNode) : Nat := node.line

/-
Structural equality test on syntax nodes.  JS object identity (`!==`)
is modeled by structural equality: a syntax tree never contains a node
structurally equal to itself as a strict descendant (the size strictly
decreases), so the two notions agree on tree traversals.
-/
mutual
/-- Structural equality of syntax nodes. -/
def nodeBeq : SyntaxNode → SyntaxNode → Bool
  | .mk t1 x1 l1 cs1, .mk t2 x2 l2 cs2 =>
    t1 == t2 && x1 == x2 && l1 == l2 && nodeBeqList cs1 cs2
/-- Structural equality of lists of syntax nodes. -/
def nodeBeqList : List SyntaxNode → List SyntaxNode → Bool
  | [], [] => true
  | a :: as, b :: bs => nodeBeq a b && nodeBeqList as bs
  | _, _ => false
end

mutual
/-- Number of nodes of a syntax tree (used as recursion fuel below). -/
def nodeSize : SyntaxNode → Nat
  | .mk _ _ _ cs => 1 + nodeSizeList cs
/-- Total number of nodes of a list of syntax trees. -/
def nodeSizeList : List SyntaxNode → Nat
  | [] => 0
  | c :: cs => nodeSize c + nodeSizeList cs
end

mutual
/-- `findNodesOfType` from `ast-walker.ts`: pre-order collection of all
nodes of a given type (`walkTree` with a collecting visitor). -/
def findNodesOfType : SyntaxNode → String → List SyntaxNode
  | .mk t x l children, ty =>
    (if t == ty then [SyntaxNode.mk t x l children] else []) ++
      findNodesOfTypeList children ty
/-- `findNodesOfType` over the children, left to right. -/
def findNodesOfTypeList : List SyntaxNode → String → List SyntaxNode
  | [], _ => []
  | c :: cs, ty => findNodesOfType c ty ++ findNodesOfTypeList cs ty
end

/-! ### Transition builder (`transition-builder.ts`) -/

/-- `extractAssignmentsFromText`: every match of
`(\w+)\s*(<=|=)\s*([^;]+);`, all carrying the base line. -/
def extractAssignmentsFromText (text : String) (baseLine : Nat) : List Assignment :=
  (scanAssignments text).map (fun m => Assignment.mk m.1 m.2.2 baseLine m.2.1)

/-- Anchored matcher for the fallback pattern
`if\s*\(([^)]+)\)\s*(?:begin\s*)?(\w+)\s*(<=|=)\s*(\w+)\s*;` (with `/gi`):
returns `(condition, target, isBlocking, value)` and the rest.  The
optional `begin` is greedy, so it is tried first and retried without on
failure of the remainder. -/
def matchSimpleIf (cs : List Char) :
    Option ((String × String × Bool × String) × List Char) :=
  match matchIfCond cs with
  | none => none
  | some (cond, r) =>
    let tailFrom := fun (x : List Char) =>
      let (run, rest) := takeWordRun x
      if run.isEmpty then none
      else
        match skipWs rest with
        | '<' :: '=' :: r2 =>
          let (vrun, vrest) := takeWordRun (skipWs r2)
          if vrun.isEmpty then none
          else
            match skipWs vrest with
            | ';' :: tl => some ((strOfList (trimChars cond), strOfList run, false,
                strOfList vrun), tl)
            | _ => none
        | '=' :: r2 =>
          let (vrun, vrest) := takeWordRun (skipWs r2)
          if vrun.isEmpty then none
          else
            match skipWs vrest with
            | ';' :: tl => some ((strOfList (trimChars cond), strOfList run, true,
                strOfList vrun), tl)
            | _ => none
        | _ => none
    match matchLitCaseless ['b', 'e', 'g', 'i', 'n'] (skipWs r) with
    | some rb =>
      match tailFrom (skipWs rb) with
      | some res => some res
      | none => tailFrom (skipWs r)
    | none => tailFrom (skipWs r)

/-- Global scan for the fallback simple-if pattern. -/
def scanSimpleIfAux : Nat → List Char → List (String × String × Bool × String)
  | 0, _ => []
  | _, [] => []
  | Nat.succ fuel, c :: cs =>
    match matchSimpleIf (c :: cs) with
    | some (res, rest) => res :: scanSimpleIfAux fuel rest
    | none => scanSimpleIfAux fuel cs

/-- `parseIfBlocksFromText`: the text fallback for if-blocks. -/
def parseIfBlocksFromText (text : String) (_nextStateVarName : String) (baseLine : Nat) :
    List ConditionalBlock :=
  (scanSimpleIfAux (strToList text).length (strToList text)).map (fun m =>
    ConditionalBlock.mk m.1 [Assignment.mk m.2.1 m.2.2.2 baseLine m.2.2.1] [] [] baseLine)

/-- `parseConditionalBlock`, fuel-indexed.  The recursion of the source
descends from a `conditional_statement` node to the strictly smaller
nested `conditional_statement` nodes collected by `findNodesOfType`, so
a fuel of `nodeSize ifNode` (supplied by the wrapper below) is never
exhausted; out of fuel the function returns `none`.  The
`nested !== ifNode` reference-identity filter of the source is modeled
with structural equality (see `nodeBeq`). -/
def parseConditionalBlockFuel : Nat → SyntaxNode → String → Option ConditionalBlock
  | 0, _, _ => none
  | Nat.succ fuel, ifNode, nextStateVarName =>
    let text := getNodeText ifNode
    let line := getNodeLine ifNode
    match findIfCondition text with
    | none => none
    | some condRaw =>
      let condition := strTrim condRaw
      let assignments := extractAssignmentsFromText text line
      let branches :=
        if hasElseWord text then
          if hasElseIf text then
            let nestedSrc := (findNodesOfType ifNode "conditional_statement").filter
              (fun nested => !(nodeBeq nested ifNode))
            (([] : List Assignment),
              nestedSrc.filterMap
                (fun nested => parseConditionalBlockFuel fuel nested nextStateVarName))
          else
            let elseText :=
              match indexOfElse text with
              | some i => strOfList ((strToList text).drop (i + 4))
              | none => strOfList ((strToList text).drop 3)
            (extractAssignmentsFromText elseText line, ([] : List ConditionalBlock))
        else ([], [])
      some (ConditionalBlock.mk condition assignments branches.1 branches.2 line)

/-- `parseConditionalBlock`: parse one `conditional_statement` node. -/
def parseConditionalBlock (ifNode : SyntaxNode) (nextStateVarName : String) :
    Option ConditionalBlock :=
  parseConditionalBlockFuel (nodeSize ifNode) ifNode nextStateVarName

/-- `extractIfBlocks`: AST-based if-block extraction with the text
fallback when no `conditional_statement` node yields a block. -/
def extractIfBlocks (itemNode : SyntaxNode) (itemText : String) (nextStateVarName : String) :
    List ConditionalBlock :=
  let ifNodes := findNodesOfType itemNode "conditional_statement"
  let blocks := ifNodes.filterMap (fun n => parseConditionalBlock n nextStateVarName)
  if blocks.isEmpty && strContains itemText "if" then
    parseIfBlocksFromText itemText nextStateVarName (getNodeLine itemNode)
  else blocks

/-- `extractAssignmentsAndConditions`: if-blocks plus the direct
assignments found after `removeIfBlocks`. -/
def extractAssignmentsAndConditions (itemNode : SyntaxNode) (itemText : String)
    (nextStateVarName : String) : List Assignment × List ConditionalBlock :=
  let conditions := extractIfBlocks itemNode itemText nextStateVarName
  let processedText := removeIfBlocks itemText
  let assignments := extractAssignmentsFromText processedText (getNodeLine itemNode)
  (assignments, conditions)

/-- `extractCaseLabels`: the labels of one case item that name known
states (or `default`). -/
def extractCaseLabels (_itemNode : SyntaxNode) (itemText : String)
    (stateNames : List String) : List String :=
  match indexOfChar ':' (strToList itemText) with
  | none => []
  | some colonIndex =>
    if colonIndex > 0 then
      let labelPart := (strToList itemText).take colonIndex
      let potentialLabels := (splitOnChar ',' labelPart).map (fun l => strOfList (trimChars l))
      potentialLabels.filterMap (fun label =>
        if stateNames.contains label then some label
        else if strLower label == "default" then some "default"
        else
          match extractUpperIdent label with
          | some m => if stateNames.contains m then some m else none
          | none => none)
    else []

/-- `extractCaseItems`: one `CaseItem` per recognised label of each
`case_item` node, plus the dedicated `default` handling. -/
def extractCaseItems (caseStmt : SyntaxNode) (stateNames : List String)
    (nextStateVarName : String) : List CaseItem :=
  let text := getNodeText caseStmt
  let caseItemNodes := findNodesOfType caseStmt "case_item"
  let items := caseItemNodes.flatMap (fun itemNode =>
    let itemText := getNodeText itemNode
    let line := getNodeLine itemNode
    let labels := extractCaseLabels itemNode itemText stateNames
    labels.map (fun label =>
      let ac := extractAssignmentsAndConditions itemNode itemText nextStateVarName
      CaseItem.mk label line ac.1 ac.2))
  if hasDefaultColon text then
    match caseItemNodes.find? (fun n => strContains (strLower (getNodeText n)) "default") with
    | some defaultItem =>
      let ac := extractAssignmentsAndConditions defaultItem (getNodeText defaultItem)
        nextStateVarName
      items ++ [CaseItem.mk "default" (getNodeLine defaultItem) ac.1 ac.2]
    | none => items
  else items

/-- `isStateAssignment`: heuristic test for a next-state target. -/
def isStateAssignment (target : String) (nextStateVarName : String) : Bool :=
  target == nextStateVarName ||
    strContains (strLower target) "state" ||
    strLower target == "ns" ||
    strLower target == "next"

mutual
/-- `processConditionalBlock`: guarded transitions of one conditional
block, accumulating `accumulated && !(condition)` down else/else-if
branches.  The `hasDefaultAssignment` parameter is carried but unused,
exactly as in the source. -/
def processConditionalBlock (cond : ConditionalBlock) (fromState nextStateVarName : String)
    (stateNames : List String) (sourceBlock : SourceBlock)
    (accumulatedCondition : String) (hasDefaultAssignment : Bool) : List FSMTransition :=
  match cond with
  | .mk condition assignments elseAssignments nestedConditions _line =>
    let fullCondition :=
      if accumulatedCondition == "" then condition
      else accumulatedCondition ++ " && " ++ condition
    let thenTs := assignments.filterMap (fun assign =>
      if assign.target == nextStateVarName || isStateAssignment assign.target nextStateVarName
      then
        if stateNames.contains assign.value then
          some { from_ := fromState, to_ := assign.value,
                 condition := some (simplifyCondition fullCondition),
                 rawCondition := some fullCondition,
                 line := assign.line,
                 isSelfLoop := fromState == assign.value,
                 sourceBlock := sourceBlock, outputs := [] }
        else none
      else none)
    let elseTs :=
      if elseAssignments.length > 0 then
        let elseCondition :=
          if accumulatedCondition == "" then "!(" ++ condition ++ ")"
          else accumulatedCondition ++ " && !(" ++ condition ++ ")"
        elseAssignments.filterMap (fun assign =>
          if assign.target == nextStateVarName ||
              isStateAssignment assign.target nextStateVarName then
            if stateNames.contains assign.value then
              some { from_ := fromState, to_ := assign.value,
                     condition := some (simplifyCondition elseCondition),
                     rawCondition := some elseCondition,
                     line := assign.line,
                     isSelfLoop := fromState == assign.value,
                     sourceBlock := sourceBlock, outputs := [] }
            else none
          else none)
      else []
    let negatedCurrent :=
      if accumulatedCondition == "" then "!(" ++ condition ++ ")"
      else accumulatedCondition ++ " && !(" ++ condition ++ ")"
    let nestedTs := processConditionalBlockList nestedConditions fromState nextStateVarName
      stateNames sourceBlock negatedCurrent hasDefaultAssignment
    thenTs ++ elseTs ++ nestedTs
/-- `processConditionalBlock` over a list of nested blocks, in order. -/
def processConditionalBlockList (conds : List ConditionalBlock)
    (fromState nextStateVarName : String) (stateNames : List String)
    (sourceBlock : SourceBlock) (accumulatedCondition : String)
    (hasDefaultAssignment : Bool) : List FSMTransition :=
  match conds with
  | [] => []
  | cond :: rest =>
    processConditionalBlock cond fromState nextStateVarName stateNames sourceBlock
      accumulatedCondition hasDefaultAssignment ++
    processConditionalBlockList rest fromState nextStateVarName stateNames sourceBlock
      accumulatedCondition hasDefaultAssignment
end

/-- `processCaseItem`: transitions of one case arm; a `default` arm
yields nothing, and an arm with no transitions yields one implicit
self-loop when the default-assignment pattern was detected. -/
def processCaseItem (item : CaseItem) (nextStateVarName : String) (stateNames : List String)
    (sourceBlock : SourceBlock) (hasDefaultAssignment : Bool) : List FSMTransition :=
  let fromState := item.label
  if fromState == "default" then []
  else
    let directTs := item.assignments.filterMap (fun assign =>
      if assign.target == nextStateVarName || isStateAssignment assign.target nextStateVarName
      then
        if stateNames.contains assign.value then
          some { from_ := fromState, to_ := assign.value, line := assign.line,
                 isSelfLoop := fromState == assign.value,
                 sourceBlock := sourceBlock, outputs := ([] : List FSMOutput) }
        else none
      else none)
    let condTs := item.conditions.flatMap (fun cond =>
      processConditionalBlock cond fromState nextStateVarName stateNames sourceBlock ""
        hasDefaultAssignment)
    let transitions := directTs ++ condTs
    if transitions.length == 0 && hasDefaultAssignment then
      transitions ++ [{ from_ := fromState, to_ := fromState, line := item.line,
                        isDefault := true, isSelfLoop := true, isImplicit := true,
                        sourceBlock := sourceBlock, outputs := [] }]
    else transitions

/-- `extractTransitions`: the per-case-statement entry point.  The text
of `caseStmt.parent` (used only for the default-assignment test) is
passed explicitly as `parentText` since the rose tree stores no parent
pointers; `none` models a parentless node. -/
def extractTransitions (caseStmt : SyntaxNode) (parentText : Option String)
    (stateVarName nextStateVarName : String) (stateNames : List String)
    (sourceBlock : SourceBlock) : List FSMTransition × Bool :=
  let hasDefaultAssignment :=
    match parentText with
    | some t => defaultAssignTest nextStateVarName stateVarName t
    | none => false
  let caseItems := extractCaseItems caseStmt stateNames nextStateVarName
  let transitions := caseItems.flatMap (fun item =>
    processCaseItem item nextStateVarName stateNames sourceBlock hasDefaultAssignment)
  let transitions :=
    if hasDefaultAssignment then
      stateNames.foldl (fun acc state =>
        if (acc.filter (fun t => t.from_ == state)).length == 0 then
          acc ++ [{ from_ := state, to_ := state, line := getNodeLine caseStmt,
                    isDefault := true, isSelfLoop := true, isImplicit := true,
                    sourceBlock := sourceBlock, outputs := [] }]
        else acc) transitions
    else transitions
  (transitions, hasDefaultAssignment)

/-! ### Reset-state extraction (`extractResetState`, transition-builder) -/

/-- Shared tail `\s*(?:begin\s*)?STATE\s*<=\s*(\w+)` of the three reset
patterns (all case-insensitive, `STATE` interpolated).  The optional
`begin` is greedy with a retry without it. -/
def matchResetTail (stateVarName : String) (cs : List Char) : Option String :=
  let core := fun (x : List Char) =>
    match matchLitCaseless (strToList stateVarName) x with
    | none => none
    | some y =>
      match skipWs y with
      | '<' :: '=' :: z =>
        let (run, _) := takeWordRun (skipWs z)
        if run.isEmpty then none else some (strOfList run)
      | _ => none
  let r := skipWs cs
  match matchLitCaseless ['b', 'e', 'g', 'i', 'n'] r with
  | some rb =>
    match core (skipWs rb) with
    | some v => some v
    | none => core r
  | none => core r

/-- Active-low form `if\s*\(\s*[!~]\s*\w+\s*\)` followed by the tail. -/
def matchReset1 (stateVarName : String) (cs : List Char) : Option String :=
  match matchLitCaseless ['i', 'f'] cs with
  | none => none
  | some r1 =>
    match skipWs r1 with
    | '(' :: r2 =>
      match skipWs r2 with
      | c :: r3 =>
        if c == '!' || c == '~' then
          let (run, rest) := takeWordRun (skipWs r3)
          if run.isEmpty then none
          else
            match skipWs rest with
            | ')' :: r4 => matchResetTail stateVarName r4
            | _ => none
        else none
      | [] => none
    | _ => none

/-- Active-high form `if\s*\(\s*\w+\s*\)` followed by the tail. -/
def matchReset2 (stateVarName : String) (cs : List Char) : Option String :=
  match matchLitCaseless ['i', 'f'] cs with
  | none => none
  | some r1 =>
    match skipWs r1 with
    | '(' :: r2 =>
      let (run, rest) := takeWordRun (skipWs r2)
      if run.isEmpty then none
      else
        match skipWs rest with
        | ')' :: r4 => matchResetTail stateVarName r4
        | _ => none
    | _ => none

/-- Comparison form `if\s*\([^)]+\)` followed by the tail. -/
def matchReset3 (stateVarName : String) (cs : List Char) : Option String :=
  match matchIfCond cs with
  | none => none
  | some (_, r) => matchResetTail stateVarName r

/-- `extractResetState`: try the three reset patterns in order against
the text of the clocked block; a captured state is returned only when it
names a known state, otherwise the next pattern is tried. -/
def extractResetState (alwaysNode : SyntaxNode) (stateVarName : String)
    (stateNames : List String) : Option String :=
  let text := strToList (getNodeText alwaysNode)
  let tryPattern := fun (m : List Char → Option String) =>
    match scanFirst m text with
    | some resetState => if stateNames.contains resetState then some resetState else none
    | none => none
  match tryPattern (matchReset1 stateVarName) with
  | some v => some v
  | none =>
    match tryPattern (matchReset2 stateVarName) with
    | some v => some v
    | none => tryPattern (matchReset3 stateVarName)

/-! ### Condition simplifier module (`condition-simplifier.ts`)

This module is separate from the local `simplifyCondition` of
`transition-builder.ts` embedded above; its functions are placed in the
`CondSimp` namespace to keep both definitions available. -/

/-- Anchored matcher for `(\w+)\s*OP\s*LIT`, replacing with the word run
(negated with a leading `!` when `neg` is set). -/
def matchCmpLit (opChars lit : List Char) (neg : Bool) (cs : List Char) :
    Option (List Char × List Char) :=
  let (run, rest) := takeWordRun cs
  if run.isEmpty then none
  else
    match matchLit opChars (skipWs rest) with
    | none => none
    | some r2 =>
      match matchLit lit (skipWs r2) with
      | none => none
      | some r3 => some ((if neg then '!' :: run else run), r3)

/-- Anchored matcher for `!\s*\(\s*(\w+)\s*OPIN\s*(\w+)\s*\)`, replacing
with `$1 OPOUT $2`. -/
def matchNegCmp (opIn opOut : List Char) (cs : List Char) :
    Option (List Char × List Char) :=
  match cs with
  | '!' :: r =>
    match skipWs r with
    | '(' :: r2 =>
      let (run1, rest1) := takeWordRun (skipWs r2)
      if run1.isEmpty then none
      else
        match matchLit opIn (skipWs rest1) with
        | none => none
        | some r3 =>
          let (run2, rest2) := takeWordRun (skipWs r3)
          if run2.isEmpty then none
          else
            match skipWs rest2 with
            | ')' :: r4 => some (run1 ++ [' '] ++ opOut ++ [' '] ++ run2, r4)
            | _ => none
    | _ => none
  | _ => none

namespace CondSimp

/-- Depth scan of `removeOuterParens`: processes the given characters,
returning the final depth, or `none` as soon as the depth reaches zero
(the `allBalanced = false` early exit). -/
def depthScan : Int → List Char → Option Int
  | d, [] => some d
  | d, c :: cs =>
    let dNext := if c == '(' then d + 1 else if c == ')' then d - 1 else d
    if dNext == 0 then none else depthScan dNext cs

/-- `removeOuterParens`: strip parentheses that wrap the whole
expression. -/
def removeOuterParens (expr : String) : String :=
  let cs := strToList expr
  match cs with
  | '(' :: _ =>
    if cs.getLast? == some ')' then
      match depthScan 0 cs.dropLast with
      | some 1 => strOfList (trimChars (cs.dropLast.drop 1))
      | _ => expr
    else expr
  | _ => expr

/-- `simplifyPatterns`: the literal-equality rewrites
`x==1'b1 → x`, `x==1'b0 → !x`, the `===` four-state forms,
`x!=1'b0 → x`, `x!=1'b1 → !x`, and `(x) → x`. -/
def simplifyPatterns (expr : String) : String :=
  let t1 := replaceAll (matchCmpLit ['=', '='] ['1', '\'', 'b', '1'] false) (strToList expr)
  let t2 := replaceAll (matchCmpLit ['=', '='] ['1', '\'', 'b', '0'] true) t1
  let t3 := replaceAll (matchCmpLit ['=', '=', '='] ['1', '\'', 'b', '1'] false) t2
  let t4 := replaceAll (matchCmpLit ['=', '=', '='] ['1', '\'', 'b', '0'] true) t3
  let t5 := replaceAll (matchCmpLit ['!', '='] ['1', '\'', 'b', '0'] false) t4
  let t6 := replaceAll (matchCmpLit ['!', '='] ['1', '\'', 'b', '1'] true) t5
  let t7 := replaceAll matchParenWord t6
  strOfList t7

/-- `simplifyNegations`: `!!x → x`, `!(!x) → x`, `!(x==y) → x != y`,
`!(x!=y) → x == y`. -/
def simplifyNegations (expr : String) : String :=
  let t1 := replaceAll matchDoubleBang (strToList expr)
  let t2 := replaceAll matchBangParenBang t1
  let t3 := replaceAll (matchNegCmp ['=', '='] ['!', '=']) t2
  let t4 := replaceAll (matchNegCmp ['!', '='] ['=', '=']) t3
  strOfList t4

/-- `simplifyCondition` of `condition-simplifier.ts`: whitespace
normalisation, outer parentheses, pattern rewrites, negation rewrites. -/
def simplifyCondition (condition : String) : String :=
  let r1 := strOfList (trimChars (collapseWs (strToList condition)))
  let r2 := removeOuterParens r1
  let r3 := simplifyPatterns r2
  simplifyNegations r3

end CondSimp

/-! ### Output extractor (`output-extractor.ts`) -/

/-- `parseAssignments` (output extractor): same global pattern as
`extractAssignmentsFromText`. -/
def parseAssignments (text : String) (baseLine : Nat) : List Assignment :=
  (scanAssignments text).map (fun m => Assignment.mk m.1 m.2.2 baseLine m.2.1)

/-- Capture of `/begin([\s\S]*?)end/i`: content between the first
`begin` that is followed by an `end`, and that first `end`. -/
def matchBeginContent (cs : List Char) : Option (List Char) :=
  match matchLitCaseless ['b', 'e', 'g', 'i', 'n'] cs with
  | none => none
  | some r =>
    match findCaselessIdx ['e', 'n', 'd'] r with
    | none => none
    | some i => some (r.take i)

/-- Lazy-body search for
`if\s*\(([^)]+)\)\s*(?:begin\s*)?([\s\S]*?)(?:end|(?=\s*else|\s*$))`:
from each position, first try a literal (case-insensitive) `end`
(consumed), then the zero-width lookaheads `\s*else` and `\s*$`.
Returns the body and the rest after the terminator. -/
def findBodyEnd : List Char → List Char × List Char
  | [] => ([], [])
  | c :: cs =>
    match matchLitCaseless ['e', 'n', 'd'] (c :: cs) with
    | some rest => ([], rest)
    | none =>
      let ws := skipWs (c :: cs)
      if (matchLitCaseless ['e', 'l', 's', 'e'] ws).isSome || ws.isEmpty then ([], c :: cs)
      else
        let (body, rest) := findBodyEnd cs
        (c :: body, rest)

/-- Anchored matcher for the output-extractor if pattern: returns
`(trimmedCondition, body)`, the consumed length, and the rest. -/
def matchIfBodyAt (cs : List Char) : Option ((String × String) × Nat × List Char) :=
  match matchIfCond cs with
  | none => none
  | some (cond, r) =>
    let r2 := skipWs r
    let r3 :=
      match matchLitCaseless ['b', 'e', 'g', 'i', 'n'] r2 with
      | some rb => skipWs rb
      | none => r2
    let (body, rest) := findBodyEnd r3
    some ((strOfList (trimChars cond), strOfList body), cs.length - rest.length, rest)

/-- Global scan of the output-extractor if pattern with match indices
(`matchAll`, used to build `processedRanges`). -/
def scanIfBodiesAux : Nat → Nat → List Char → List ((String × String) × Nat × Nat)
  | 0, _, _ => []
  | _, _, [] => []
  | Nat.succ fuel, pos, c :: cs =>
    match matchIfBodyAt (c :: cs) with
    | some (res, len, rest) => (res, pos, pos + len) :: scanIfBodiesAux fuel (pos + len) rest
    | none => scanIfBodiesAux fuel (pos + 1) cs

def scanIfBodies (s : String) : List ((String × String) × Nat × Nat) :=
  scanIfBodiesAux (strToList s).length 0 (strToList s)

/-- `removeRanges`: sort ranges by start descending, then cut each. -/
def removeRanges (cs : List Char) (ranges : List (Nat × Nat)) : List Char :=
  (ranges.mergeSort (fun a b => decide (b.1 ≤ a.1))).foldl
    (fun acc r => acc.take r.1 ++ acc.drop r.2) cs

/-- `parseCaseItemForOutputs`: direct assignments and (flat) conditional
blocks of one case item, for output extraction. -/
def parseCaseItemForOutputs (itemNode : SyntaxNode) (itemText : String)
    (_stateVarName _nextStateVarName : String) :
    List Assignment × List ConditionalBlock :=
  let line := getNodeLine itemNode
  match indexOfChar ':' (strToList itemText) with
  | none => ([], [])
  | some colonIndex =>
    let content := (strToList itemText).drop (colonIndex + 1)
    let blockContent :=
      match matchBeginContent content with
      | some inner => inner
      | none => content
    let ifMatches := scanIfBodies (strOfList blockContent)
    let conditionalBlocks := ifMatches.map (fun m =>
      ConditionalBlock.mk m.1.1 (parseAssignments m.1.2 line) [] [] line)
    let processedRanges := ifMatches.map (fun m => (m.2.1, m.2.2))
    let directContent := removeRanges blockContent processedRanges
    let directAssignments := parseAssignments (strOfList directContent) line
    (directAssignments, conditionalBlocks)

/-- `extractStateName`: the state named by a case-item label, by exact
match or first state whose name occurs inside the label. -/
def extractStateName (itemText : String) (stateNames : List String) : Option String :=
  match indexOfChar ':' (strToList itemText) with
  | none => none
  | some colonIndex =>
    let label := strOfList (trimChars ((strToList itemText).take colonIndex))
    if stateNames.contains label then some label
    else stateNames.find? (fun st => strContains label st)

/-- `isStateVar`: exact state/next-state variable test. -/
def isStateVar (name stateVarName nextStateVarName : String) : Bool :=
  name == stateVarName || name == nextStateVarName

/-- Identifier runs of a condition (`\b[a-zA-Z_][a-zA-Z0-9_]*\b`):
maximal word runs whose first character is a letter or underscore. -/
def condIdentRuns (s : String) : List String :=
  (wordRunsAux [] (strToList s)).filterMap (fun run =>
    match run with
    | c :: _ => if c.isAlpha || c == '_' then some (strOfList run) else none
    | [] => none)

/-- `extractMealyFromConditional`: Mealy outputs, the (last) transition
key, and the input signals referenced by the condition. -/
def extractMealyFromConditional (cond : ConditionalBlock) (fromState : String)
    (stateVarName nextStateVarName : String) (stateNames : List String) :
    List FSMOutput × Option String × List String :=
  let inputs := (condIdentRuns cond.condition).filter (fun v =>
    !(["and", "or", "not"].contains (strLower v)))
  let res := cond.assignments.foldl (fun (acc : List FSMOutput × Option String) assign =>
    if isStateVar assign.target stateVarName nextStateVarName then
      if stateNames.contains assign.value then
        (acc.1, some (fromState ++ "->" ++ assign.value))
      else acc
    else (acc.1 ++ [FSMOutput.mk assign.target assign.value assign.line], acc.2))
    ([], none)
  (res.1, res.2, inputs)

/-- Insertion-ordered map update (JS `Map.prototype.set`). -/
def mapSet {v : Type} (m : List (String × v)) (k : String) (x : v) : List (String × v) :=
  if m.any (fun p => p.1 == k) then m.map (fun p => if p.1 == k then (k, x) else p)
  else m ++ [(k, x)]

/-- Insertion-ordered map lookup (JS `Map.prototype.get`). -/
def mapGet {v : Type} (m : List (String × v)) (k : String) : Option v :=
  (m.find? (fun p => p.1 == k)).map (fun p => p.2)

/-- Insertion-ordered set insertion (JS `Set.prototype.add`). -/
def setAdd (s : List String) (x : String) : List String :=
  if s.contains x then s else s ++ [x]

/-- Result record of `extractOutputsFromCaseStatement`. -/
structure OutputsResult where
  mooreOutputsByState : List (String × List FSMOutput)
  mealyOutputsByTransition : List (String × List FSMOutput)
  outputSignals : List String
  inputSignals : List String
deriving DecidableEq, Repr

/-- `extractOutputsFromCaseStatement`: Moore outputs per state, Mealy
outputs per transition key, and the derived output/input signal sets. -/
def extractOutputsFromCaseStatement (caseStmt : SyntaxNode)
    (stateVarName nextStateVarName : String) (stateNames : List String) : OutputsResult :=
  let caseItems := findNodesOfType caseStmt "case_item"
  caseItems.foldl (fun acc itemNode =>
    let itemText := getNodeText itemNode
    match extractStateName itemText stateNames with
    | none => acc
    | some state =>
      let item := parseCaseItemForOutputs itemNode itemText stateVarName nextStateVarName
      let mooreStep := item.1.foldl (fun (a : List FSMOutput × List String) assign =>
        if !(isStateVar assign.target stateVarName nextStateVarName) then
          (a.1 ++ [FSMOutput.mk assign.target assign.value assign.line],
            setAdd a.2 assign.target)
        else a) ([], acc.outputSignals)
      let mooreOutputs := mooreStep.1
      let acc1 :=
        { acc with
          outputSignals := mooreStep.2
          mooreOutputsByState :=
            if mooreOutputs.length > 0 then
              mapSet acc.mooreOutputsByState state mooreOutputs
            else acc.mooreOutputsByState }
      item.2.foldl (fun acc2 cond =>
        let mealy := extractMealyFromConditional cond state stateVarName nextStateVarName
          stateNames
        let acc3 :=
          match mealy.2.1 with
          | some transitionKey =>
            if mealy.1.length > 0 then
              { acc2 with
                mealyOutputsByTransition :=
                  mapSet acc2.mealyOutputsByTransition transitionKey mealy.1
                outputSignals := mealy.1.foldl (fun s (o : FSMOutput) => setAdd s o.signal)
                  acc2.outputSignals }
            else acc2
          | none => acc2
        { acc3 with inputSignals := mealy.2.2.foldl setAdd acc3.inputSignals })
        acc1)
    (OutputsResult.mk [] [] [] [])

/-- `attachOutputsToTransitions`: attach Mealy outputs keyed
`FROM->TO` to matching transitions. -/
def attachOutputsToTransitions (transitions : List FSMTransition)
    (mealyOutputsByTransition : List (String × List FSMOutput)) : List FSMTransition :=
  transitions.map (fun transition =>
    match mapGet mealyOutputsByTransition (transition.from_ ++ "->" ++ transition.to_) with
    | some outputs => { transition with outputs := outputs }
    | none => transition)

/-- `formatOutput`: `signal=value` with `1'b1 → 1` and `1'b0 → 0`. -/
def formatOutput (output : FSMOutput) : String :=
  let v1 := replaceAll (fun cs => (matchLit ['1', '\'', 'b', '1'] cs).map (fun r => (['1'], r)))
    (strToList output.value)
  let v2 := replaceAll (fun cs => (matchLit ['1', '\'', 'b', '0'] cs).map (fun r => (['0'], r)))
    v1
  output.signal ++ "=" ++ strOfList v2

/-- `formatOutputs`: comma-separated formatted outputs. -/
def formatOutputs (outputs : List FSMOutput) : String :=
  String.intercalate ", " (outputs.map formatOutput)

/-! ### Always-block analysis (`always-analyzer.ts`, the parts consumed
by the FSM assembler) -/

inductive ResetPolarity : Type where
  | activeHigh
  | activeLow
deriving DecidableEq, Repr

/-- `AlwaysBlock` from `types.ts`. -/
structure AlwaysBlock where
  type : SourceBlock
  line : Nat
  sensitivityList : Option (List String) := none
  hasReset : Bool := false
  resetSignal : Option String := none
  resetPolarity : Option ResetPolarity := none
  stateAssignments : List String
deriving DecidableEq, Repr

/-- Anchored matcher for `case[zx]?\s*\(\s*(\w+)\s*\)` (case-insensitive,
greedy optional `z`/`x` with retry). -/
def matchCaseExpr (cs : List Char) : Option String :=
  match matchLitCaseless ['c', 'a', 's', 'e'] cs with
  | none => none
  | some r =>
    let inner := fun (t : List Char) =>
      match skipWs t with
      | '(' :: t2 =>
        let (run, rest) := takeWordRun (skipWs t2)
        if run.isEmpty then none
        else
          match skipWs rest with
          | ')' :: _ => some (strOfList run)
          | _ => none
      | _ => none
    match r with
    | c :: t =>
      if c.toLower == 'z' || c.toLower == 'x' then
        match inner t with
        | some v => some v
        | none => inner r
      else inner r
    | [] => inner r

/-- `getCaseExpression`: the switched-on identifier of a case statement.
(The AST-walk fallback of the source inspects nodes but never returns a
value, so only the regex path is observable.) -/
def getCaseExpression (caseStmt : SyntaxNode) : Option String :=
  scanFirst matchCaseExpr (strToList (getNodeText caseStmt))

/-- `findStateCaseStatements`: case statements switching on one of the
state variables. -/
def findStateCaseStatements (alwaysNode : SyntaxNode) (stateVarNames : List String) :
    List SyntaxNode :=
  (findNodesOfType alwaysNode "case_statement").filter (fun caseStmt =>
    match getCaseExpression caseStmt with
    | some caseExpr => stateVarNames.contains caseExpr
    | none => false)

inductive BlockStyle : Type where
  | oneBlock
  | twoBlock
  | threeBlock
deriving DecidableEq, Repr

/-- `detectBlockStyle`: classify the FSM's block structure. -/
def detectBlockStyle (alwaysBlocks : List AlwaysBlock) (stateVarName : String)
    (nextStateVarName : Option String) : BlockStyle :=
  let stateAssigners := alwaysBlocks.filter (fun b =>
    b.stateAssignments.contains stateVarName)
  let nextStateAssigners :=
    match nextStateVarName with
    | some ns => alwaysBlocks.filter (fun (b : AlwaysBlock) => b.stateAssignments.contains ns)
    | none => []
  let oneBlockHit :=
    stateAssigners.length == 1 && nextStateAssigners.length == 0 &&
      (match stateAssigners.head? with
       | some (b : AlwaysBlock) => b.type == SourceBlock.alwaysFF || b.type == SourceBlock.always
       | none => false)
  if oneBlockHit then BlockStyle.oneBlock
  else
    let twoBlockHit : Bool :=
      match nextStateVarName with
      | some _ =>
        let ffBlocks := stateAssigners.filter (fun (b : AlwaysBlock) =>
          b.type == SourceBlock.alwaysFF || b.type == SourceBlock.always)
        let combBlocks := nextStateAssigners.filter (fun (b : AlwaysBlock) =>
          b.type == SourceBlock.alwaysComb || b.type == SourceBlock.always)
        decide (1 ≤ ffBlocks.length) && decide (1 ≤ combBlocks.length)
      | none => false
    if twoBlockHit then BlockStyle.twoBlock
    else if stateAssigners.length == 1 then BlockStyle.oneBlock
    else BlockStyle.twoBlock

/-- `getTransitionBlock`: the block that drives the next-state (or, for
one-block style, the state) variable. -/
def getTransitionBlock (alwaysBlocks : List AlwaysBlock) (stateVarName : String)
    (nextStateVarName : Option String) : Option AlwaysBlock :=
  let combBlock :=
    match nextStateVarName with
    | some ns => alwaysBlocks.find? (fun b =>
        (b.type == SourceBlock.alwaysComb || b.type == SourceBlock.always) &&
          b.stateAssignments.contains ns)
    | none => none
  match combBlock with
  | some b => some b
  | none =>
    alwaysBlocks.find? (fun b =>
      (b.type == SourceBlock.alwaysFF || b.type == SourceBlock.always) &&
        b.stateAssignments.contains stateVarName)

/-! ### FSM data model (`types.ts`, assembler-level records) -/

structure StateRegister where
  varName : String
  typeName : Option String := none
  isNextState : Bool
  line : Nat
deriving DecidableEq, Repr

/-- A `{ state, nextState? }` register pair. -/
structure RegisterPair where
  state : StateRegister
  nextState : Option StateRegister := none
deriving DecidableEq, Repr

structure EnumStateDef where
  name : String
  encoding : Option String := none
  line : Nat
deriving DecidableEq, Repr

structure EnumDefinition where
  typeName : String
  states : List EnumStateDef
  line : Nat
deriving DecidableEq, Repr

/-- `FSMState` (the annotation flags written by the validators are
carried but start out false). -/
structure FSMState where
  name : String
  encoding : Option String := none
  line : Nat
  outputs : List FSMOutput
  isUnreachable : Bool := false
  isTerminal : Bool := false
deriving DecidableEq, Repr

/-- `FSMWarning`; the `type` field holds the literal warning tag
(`"unreachable_state"`, `"terminal_state"`, `"missing_case"`,
`"no_reset"`, `"implicit_default"`). -/
structure FSMWarning where
  type : String
  message : String
  line : Option Nat := none
  states : Option (List String) := none
deriving DecidableEq, Repr

inductive EncodingType : Type where
  | binary
  | onehot
  | gray
  | unknown
deriving DecidableEq, Repr

/-- Confidence factors; JS numbers are modeled as exact rationals. -/
structure ConfidenceBreakdown where
  stateDetection : ℚ
  transitionExtraction : ℚ
  resetDetection : ℚ
  outputExtraction : ℚ
deriving DecidableEq, Repr

structure FSM where
  name : String
  states : List FSMState
  transitions : List FSMTransition
  resetState : Option String := none
  encoding : EncodingType
  stateVarName : String
  nextStateVarName : Option String := none
  blockStyle : BlockStyle
  confidence : ℚ
  confidenceBreakdown : ConfidenceBreakdown
  warnings : List FSMWarning
  errors : List String
  inputSignals : List String
  outputSignals : List String
deriving DecidableEq, Repr

/-! ### FSM assembly (`fsm-detector.ts`) -/

/-- `findStateRegistersForEnum`: first pair whose state register has the
enum's type name. -/
def findStateRegistersForEnum (enumDef : EnumDefinition) (pairs : List RegisterPair) :
    Option RegisterPair :=
  pairs.find? (fun pair => pair.state.typeName == some enumDef.typeName)

/-- `findAlwaysBlockNode`: the `always_construct` node at a given line. -/
def findAlwaysBlockNode (root : SyntaxNode) (line : Nat) : Option SyntaxNode :=
  (findNodesOfType root "always_construct").find? (fun node => getNodeLine node == line)

mutual
/-- Parent of a node in a tree: the first node (pre-order) having the
target among its children.  Models the `.parent` pointer of tree-sitter
nodes (see `nodeBeq` for identity vs structural equality). -/
def parentOf : SyntaxNode → SyntaxNode → Option SyntaxNode
  | .mk t x l cs, target =>
    if cs.any (fun c => nodeBeq c target) then some (SyntaxNode.mk t x l cs)
    else parentOfList cs target
/-- `parentOf` over a list of subtrees, first hit wins. -/
def parentOfList : List SyntaxNode → SyntaxNode → Option SyntaxNode
  | [], _ => none
  | c :: cs, target =>
    match parentOf c target with
    | some p => some p
    | none => parentOfList cs target
end

/-- Text of the parent of a node, as consumed by `extractTransitions`. -/
def parentTextOf (root target : SyntaxNode) : Option String :=
  (parentOf root target).map getNodeText

/-- `inferStatesFromCase`: uppercase case-arm labels as inferred state
names (insertion-ordered set). -/
def inferStatesFromCase (caseStmt : SyntaxNode) : List String :=
  (findNodesOfType caseStmt "case_item").foldl (fun states item =>
    let itemText := getNodeText item
    match indexOfChar ':' (strToList itemText) with
    | some colonIndex =>
      if colonIndex > 0 then
        let label := strOfList (trimChars ((strToList itemText).take colonIndex))
        if strLower label != "default" && upperLabelFull label then setAdd states label
        else states
      else states
    | none => states) []

/-- `parseVerilogNumber`: binary, hex, decimal Verilog literal forms and
plain integers.  (An all-underscore digit part would be `NaN` in JS; no
enum encoding produces it, and it is modeled as a failed parse.) -/
def parseVerilogNumber (str : String) : Option Nat :=
  let s := trimChars (strToList str)
  let digitsVal := fun (base : Nat) (ds : List Char) =>
    ds.foldl (fun acc c => acc * base + c.toNat - '0'.toNat) 0
  let hexVal := fun (ds : List Char) =>
    ds.foldl (fun acc c =>
      acc * 16 + (if c.isDigit then c.toNat - '0'.toNat else c.toLower.toNat - 'a'.toNat + 10)) 0
  let matchBin := fun (cs : List Char) =>
    let ds := cs.dropWhile Char.isDigit
    match ds with
    | '\'' :: r =>
      match r with
      | b :: r2 =>
        if b.toLower == 'b' then
          let run := r2.takeWhile (fun c => c == '0' || c == '1' || c == '_')
          if run.isEmpty then none
          else
            let clean := run.filter (fun c => c != '_')
            if clean.isEmpty then none else some (digitsVal 2 clean)
        else none
      | [] => none
    | _ => none
  let matchHex := fun (cs : List Char) =>
    let ds := cs.dropWhile Char.isDigit
    match ds with
    | '\'' :: r =>
      match r with
      | h :: r2 =>
        if h.toLower == 'h' then
          let run := r2.takeWhile (fun c => c.isDigit || (c.toLower ≥ 'a' && c.toLower ≤ 'f') || c == '_')
          if run.isEmpty then none
          else
            let clean := run.filter (fun c => c != '_')
            if clean.isEmpty then none else some (hexVal clean)
        else none
      | [] => none
    | _ => none
  let matchDec := fun (cs : List Char) =>
    let ds := cs.dropWhile Char.isDigit
    match ds with
    | '\'' :: r =>
      let r2 := match r with
        | d :: rest => if d.toLower == 'd' then rest else r
        | [] => r
      let run := r2.takeWhile Char.isDigit
      if run.isEmpty then none else some (digitsVal 10 run)
    | _ => none
  match scanFirst (fun cs => matchBin cs) s with
  | some v => some v
  | none =>
    match scanFirst (fun cs => matchHex cs) s with
    | some v => some v
    | none =>
      match scanFirst (fun cs => matchDec cs) s with
      | some v => some v
      | none =>
        if !s.isEmpty && s.all Char.isDigit then some (digitsVal 10 s) else none

/-- `detectEncodingType`: one-hot, gray, binary or unknown from the
parsed explicit encodings. -/
def detectEncodingType (enumDef : EnumDefinition) : EncodingType :=
  let encodings := enumDef.states.filterMap (fun s => s.encoding)
  if encodings.isEmpty then EncodingType.unknown
  else
    let values := (encodings.map parseVerilogNumber).reduceOption
    if values.length != encodings.length then EncodingType.unknown
    else
      let isOneHot := values.all (fun v => decide (0 < v) && (v &&& (v - 1)) == 0)
      if isOneHot && decide (1 < values.length) then EncodingType.onehot
      else
        let sortedValues := values.mergeSort (fun a b => decide (a ≤ b))
        let isGray := (sortedValues.zip sortedValues.tail).all (fun p =>
          let diff := p.1 ^^^ p.2
          (diff &&& (diff - 1)) == 0)
        if isGray && decide (1 < sortedValues.length) then EncodingType.gray
        else EncodingType.binary

/-- `calculateConfidence`: fixed weights 0.30/0.40/0.15/0.15 with
`transitionExtraction = min(1, coverage + 0.2)`. -/
def calculateConfidence (enumDef : EnumDefinition) (transitions : List FSMTransition)
    (resetState : Option String) (outputsResult : OutputsResult) :
    ℚ × ConfidenceBreakdown :=
  let breakdown0 : ConfidenceBreakdown :=
    { stateDetection := 1
      transitionExtraction := 0.8
      resetDetection := if resetState.isSome then 1 else 0.5
      outputExtraction := 0.7 }
  let coveredStates := (transitions.map (fun t => t.from_)).dedup
  let coverage : ℚ := (coveredStates.length : ℚ) / (enumDef.states.length : ℚ)
  let breakdown1 := { breakdown0 with transitionExtraction := min 1 (coverage + 0.2) }
  let breakdown2 :=
    if decide (0 < outputsResult.outputSignals.length) ||
        decide (0 < outputsResult.inputSignals.length) then
      { breakdown1 with outputExtraction := 0.9 }
    else breakdown1
  let overall :=
    breakdown2.stateDetection * 0.3 +
    breakdown2.transitionExtraction * 0.4 +
    breakdown2.resetDetection * 0.15 +
    breakdown2.outputExtraction * 0.15
  (overall, breakdown2)

/-- `buildFSMFromEnum`: assemble one FSM from a typed enumeration, its
register pair, the analysed always blocks and the syntax tree. -/
def buildFSMFromEnum (enumDef : EnumDefinition) (registerPairs : List RegisterPair)
    (alwaysBlocks : List AlwaysBlock) (root : SyntaxNode) : Option FSM :=
  match findStateRegistersForEnum enumDef registerPairs with
  | none => none
  | some pair =>
    let stateVarName := pair.state.varName
    let nextStateVarName :=
      match pair.nextState with
      | some r => r.varName
      | none => stateVarName
    let stateNames := enumDef.states.map (fun s => s.name)
    let blockStyle := detectBlockStyle alwaysBlocks stateVarName (some nextStateVarName)
    match getTransitionBlock alwaysBlocks stateVarName (some nextStateVarName) with
    | none => none
    | some transitionBlock =>
      match findAlwaysBlockNode root transitionBlock.line with
      | none => none
      | some transitionBlockNode =>
        match findStateCaseStatements transitionBlockNode [stateVarName, nextStateVarName] with
        | [] => none
        | caseStmt :: _ =>
          let er := extractTransitions caseStmt (parentTextOf root caseStmt) stateVarName
            nextStateVarName stateNames transitionBlock.type
          let outputsResult := extractOutputsFromCaseStatement caseStmt stateVarName
            nextStateVarName stateNames
          let transitions := attachOutputsToTransitions er.1
            outputsResult.mealyOutputsByTransition
          let ffBlock := alwaysBlocks.find? (fun b =>
            b.type == SourceBlock.alwaysFF && b.stateAssignments.contains stateVarName)
          let resetState0 : Option String :=
            match ffBlock with
            | some fb =>
              match findAlwaysBlockNode root fb.line with
              | some ffNode => extractResetState ffNode stateVarName stateNames
              | none => none
            | none => none
          let resetState :=
            match resetState0 with
            | some r => some r
            | none =>
              match enumDef.states with
              | s :: _ => some s.name
              | [] => none
          let states := enumDef.states.map (fun s =>
            { name := s.name, encoding := s.encoding, line := s.line,
              outputs := (mapGet outputsResult.mooreOutputsByState s.name).getD []
              : FSMState })
          let confidence := calculateConfidence enumDef transitions resetState outputsResult
          some { name := enumDef.typeName, states := states, transitions := transitions,
                 resetState := resetState, encoding := detectEncodingType enumDef,
                 stateVarName := stateVarName,
                 nextStateVarName :=
                   if pair.nextState.isSome then some nextStateVarName else none,
                 blockStyle := blockStyle, confidence := confidence.1,
                 confidenceBreakdown := confidence.2, warnings := [], errors := [],
                 inputSignals := outputsResult.inputSignals,
                 outputSignals := outputsResult.outputSignals }

/-- `buildFSMFromRegisters`: the fallback assembly from a register pair
when no typed enumeration matched; states are inferred from uppercase
case labels and the confidence is fixed. -/
def buildFSMFromRegisters (pair : RegisterPair) (alwaysBlocks : List AlwaysBlock)
    (root : SyntaxNode) : Option FSM :=
  let stateVarName := pair.state.varName
  let nextStateVarName :=
    match pair.nextState with
    | some r => r.varName
    | none => stateVarName
  match getTransitionBlock alwaysBlocks stateVarName (some nextStateVarName) with
  | none => none
  | some transitionBlock =>
    match findAlwaysBlockNode root transitionBlock.line with
    | none => none
    | some transitionBlockNode =>
      match findStateCaseStatements transitionBlockNode [stateVarName, nextStateVarName] with
      | [] => none
      | caseStmt :: _ =>
        let stateNames := inferStatesFromCase caseStmt
        if stateNames.isEmpty then none
        else
          let er := extractTransitions caseStmt (parentTextOf root caseStmt) stateVarName
            nextStateVarName stateNames transitionBlock.type
          let states := stateNames.map (fun name =>
            { name := name, line := getNodeLine caseStmt, outputs := [] : FSMState })
          some { name := stateVarName, states := states, transitions := er.1,
                 resetState := none, encoding := EncodingType.unknown,
                 stateVarName := stateVarName,
                 nextStateVarName :=
                   if pair.nextState.isSome then some nextStateVarName else none,
                 blockStyle := detectBlockStyle alwaysBlocks stateVarName (some nextStateVarName),
                 confidence := 0.5,
                 confidenceBreakdown :=
                   { stateDetection := 0.5, transitionExtraction := 0.6,
                     resetDetection := 0.3, outputExtraction := 0.4 },
                 warnings := [], errors := [], inputSignals := [], outputSignals := [] }

/-! ### Validators (`enum-detector.ts` reachability part, `coverage.ts`)

The validators return their structured warnings; the in-place
`isUnreachable`/`isTerminal` state-flag annotations of the source are
write-only decorations (nothing in the embedded pipeline reads them) and
are not modeled. -/

/-- `findUnreachableStates`: states with no non-self-loop incoming
transition, the reset state excluded. -/
def findUnreachableStates (fsm : FSM) : List String :=
  let hasIncoming := fsm.transitions.foldl (fun s t =>
    if !t.isSelfLoop then setAdd s t.to_ else s) []
  fsm.states.foldl (fun unreachable state =>
    if some state.name == fsm.resetState then unreachable
    else if !hasIncoming.contains state.name then unreachable ++ [state.name]
    else unreachable) []

/-- `findTerminalStates`: states with no non-self-loop outgoing
transition. -/
def findTerminalStates (fsm : FSM) : List String :=
  let hasOutgoing := fsm.transitions.foldl (fun s t =>
    if !t.isSelfLoop then setAdd s t.from_ else s) []
  fsm.states.foldl (fun terminal state =>
    if !hasOutgoing.contains state.name then terminal ++ [state.name]
    else terminal) []

/-- `isIntentionalTerminal`: name suggests an intended terminal state. -/
def isIntentionalTerminal (stateName : String) : Bool :=
  ["done", "complete", "finish", "end", "halt", "stop", "final", "error", "fail",
    "dead"].any (fun pat => containsSubCaseless (strToList pat) (strToList stateName))

/-- `validateReachability`: `unreachable_state` and `terminal_state`
warnings. -/
def validateReachability (fsm : FSM) : List FSMWarning :=
  let unreachableWarnings :=
    let unreachable := findUnreachableStates fsm
    if decide (0 < unreachable.length) then
      [{ type := "unreachable_state",
         message := "State(s) " ++ String.intercalate ", " unreachable ++
           " have no incoming transitions",
         states := some unreachable : FSMWarning }]
    else []
  let terminalWarnings :=
    let terminal := findTerminalStates fsm
    if decide (0 < terminal.length) then
      let unintentional := terminal.filter (fun s => !isIntentionalTerminal s)
      if decide (0 < unintentional.length) then
        [{ type := "terminal_state",
           message := "State(s) " ++ String.intercalate ", " unintentional ++
             " have no outgoing transitions (may be intentional)",
           states := some unintentional : FSMWarning }]
      else []
    else []
  unreachableWarnings ++ terminalWarnings

/-- `DetectionMetadata` from `types.ts`. -/
structure DetectionMetadata where
  statesExplicit : Bool
  transitionsComplete : Bool
  hasImplicitSelfLoops : Bool
  hasMooreOutputs : Bool
  hasMealyOutputs : Bool
deriving DecidableEq, Repr

/-- `findMissingCases`: states with no explicit (non-implicit) outgoing
transition and no implicit self-loop. -/
def findMissingCases (fsm : FSM) : List String :=
  let handledStates := fsm.transitions.foldl (fun s t =>
    if !t.isImplicit then setAdd s t.from_ else s) []
  fsm.states.foldl (fun missing state =>
    if !handledStates.contains state.name then
      let hasImplicit := fsm.transitions.any (fun t =>
        t.from_ == state.name && t.isImplicit)
      if !hasImplicit then missing ++ [state.name] else missing
    else missing) []

/-- `validateCoverage`: `missing_case`, `no_reset` and
`implicit_default` warnings. -/
def validateCoverage (fsm : FSM) (metadata : Option DetectionMetadata) : List FSMWarning :=
  let missingWarnings :=
    let missingCases := findMissingCases fsm
    if decide (0 < missingCases.length) then
      [{ type := "missing_case",
         message := "State(s) " ++ String.intercalate ", " missingCases ++
           " not explicitly handled in case statement",
         states := some missingCases : FSMWarning }]
    else []
  let resetWarnings :=
    if fsm.resetState.isNone then
      [{ type := "no_reset",
         message := "No reset state detected. Diagram will not show initial state arrow."
         : FSMWarning }]
    else []
  let implicitWarnings :=
    match metadata with
    | some md =>
      if md.hasImplicitSelfLoops then
        let implicitStates := (fsm.transitions.filter (fun t =>
          t.isImplicit && t.isSelfLoop)).map (fun t => t.from_)
        if decide (0 < implicitStates.length) then
          [{ type := "implicit_default",
             message := "Self-loops inferred from default assignment pattern",
             states := some implicitStates.dedup : FSMWarning }]
        else []
      else []
    | none => []
  missingWarnings ++ resetWarnings ++ implicitWarnings

/-! ### Mermaid generation (`mermaid.ts`) -/

/-- `MermaidOptions`; `direction` holds `"TB"` or `"LR"`. -/
structure MermaidOptions where
  direction : String
  showConditions : Bool
  showOutputs : Bool
  showSelfLoops : Bool
deriving DecidableEq, Repr

/-- `defaultMermaidOptions`. -/
def defaultMermaidOptions : MermaidOptions :=
  { direction := "TB", showConditions := true, showOutputs := false, showSelfLoops := true }

/-- `generateStateDefinition`: the annotation lines of one state. -/
def generateStateDefinition (state : FSMState) : List String :=
  ("    " ++ state.name ++ ": " ++ state.name) ::
    state.outputs.map (fun output => "    " ++ state.name ++ ": " ++ formatOutput output)

/-- `generateTransitionLine`: one `FROM --> TO[: label]` line (without
indentation).  JS string truthiness makes an empty condition label
behave like an absent one. -/
def generateTransitionLine (transition : FSMTransition) (opts : MermaidOptions) : String :=
  let labelParts : List String :=
    (if opts.showConditions then
      match transition.condition with
      | some c => if c == "" then [] else [c]
      | none => []
    else [])
  let labelParts :=
    if opts.showOutputs && decide (0 < transition.outputs.length) then
      let outputStr := formatOutputs transition.outputs
      if decide (0 < labelParts.length) then labelParts ++ ["/", outputStr]
      else labelParts ++ ["/ " ++ outputStr]
    else labelParts
  if decide (0 < labelParts.length) then
    transition.from_ ++ " --> " ++ transition.to_ ++ ": " ++
      String.intercalate " " labelParts
  else transition.from_ ++ " --> " ++ transition.to_

/-- `generateTransitions`: one indented line per rendered transition. -/
def generateTransitions (fsm : FSM) (opts : MermaidOptions) : List String :=
  fsm.transitions.foldl (fun lines transition =>
    if transition.isSelfLoop && !opts.showSelfLoops then lines
    else if transition.isImplicit && !opts.showSelfLoops then lines
    else lines ++ ["    " ++ generateTransitionLine transition opts]) []

/-- Join lines with a newline (`lines.join('\n')`). -/
def joinNL : List (List Char) → List Char
  | [] => []
  | [l] => l
  | l :: l2 :: ls => l ++ '\n' :: joinNL (l2 :: ls)

def joinLines (lines : List String) : String :=
  strOfList (joinNL (lines.map strToList))

/-- `generateMermaid`: header, direction, optional reset arrow, optional
state annotations, blank separator, transition lines. -/
def generateMermaid (fsm : FSM) (opts : MermaidOptions) : String :=
  let lines := ["stateDiagram-v2", "    direction " ++ opts.direction]
  let lines := lines ++
    (match fsm.resetState with
     | some r => ["    [*] --> " ++ r]
     | none => [])
  let lines := lines ++
    (if opts.showOutputs then
      let statesWithOutputs := fsm.states.filter (fun s => decide (0 < s.outputs.length))
      if decide (0 < statesWithOutputs.length) then
        "" :: statesWithOutputs.flatMap generateStateDefinition
      else []
    else [])
  let lines := lines ++ ([""] ++ generateTransitions fsm opts)
  joinLines lines

/-! ### Graph-text re-derivation (specification side)

The round-trip property re-derives state and transition counts from the
generated text.  These definitions follow the wording of the round-trip
claim (transition lines are `FROM --> TO` lines excluding the synthetic
`[*]` start arrow; states are the distinct identifiers of transition
lines plus annotated states), to be compared with the generator above. -/

/-- Split at newline characters (inverse of `joinLines`). -/
def splitLines (s : String) : List String :=
  (splitOnChar '\n' (strToList s)).map strOfList

/-- Parse one transition line: trim, reject the `[*]` start arrow, split
at the first ` --> `, take the target up to an optional `: label`. -/
def parseTransitionLine (line : String) : Option (String × String) :=
  let t := strToList (strTrim line)
  if headIs ['[', '*', ']'] t then none
  else
    match indexOfSub [' ', '-', '-', '>', ' '] t with
    | none => none
    | some i =>
      let fromPart := t.take i
      let rest := t.drop (i + 5)
      let toPart := rest.takeWhile (fun c => c != ':')
      some (strOfList fromPart, strOfList toPart)

/-- The `FROM --> TO` pairs of the generated text. -/
def rederivedTransitionPairs (mermaidText : String) : List (String × String) :=
  (splitLines mermaidText).filterMap parseTransitionLine

/-- Annotated state names: lines that are not transition lines but carry
a `name: ...` annotation. -/
def rederivedAnnotatedStates (mermaidText : String) : List String :=
  (splitLines mermaidText).filterMap (fun line =>
    let t := strToList (strTrim line)
    if containsSub [' ', '-', '-', '>', ' '] t then none
    else
      match indexOfChar ':' t with
      | some i => if 0 < i then some (strOfList (trimChars (t.take i))) else none
      | none => none)

/-- Re-derived state count: distinct identifiers of transition lines
plus annotated states. -/
def rederivedStateNames (mermaidText : String) : List String :=
  (((rederivedTransitionPairs mermaidText).flatMap (fun p => [p.1, p.2])) ++
    rederivedAnnotatedStates mermaidText).dedup

/-- Re-derived transition count. -/
def rederivedTransitionCount (mermaidText : String) : Nat :=
  (rederivedTransitionPairs mermaidText).length

/-- Re-derived state count. -/
def rederivedStateCount (mermaidText : String) : Nat :=
  (rederivedStateNames mermaidText).length

/-! ### Concrete fixtures used by witnesses and counterexamples -/

/-- Inner `else if` chain node of the three-way conditional arm. -/
def c1InnerNode : SyntaxNode :=
  .mk "conditional_statement" "if (B) next_state = S2; else next_state = S3;" 12 []

/-- Outer conditional node of the three-way arm (the `else if` chain is
nested inside, as tree-sitter represents chained conditionals). -/
def c1OuterNode : SyntaxNode :=
  .mk "conditional_statement"
    "if (A) next_state = S1; else if (B) next_state = S2; else next_state = S3;" 11
    [c1InnerNode]

/-- Case item `IDLE` holding the three-way chain. -/
def c1ItemNode : SyntaxNode :=
  .mk "case_item"
    "IDLE: begin if (A) next_state = S1; else if (B) next_state = S2; else next_state = S3; end"
    11 [c1OuterNode]

/-- The case statement for the three-way chain arm. -/
def c1CaseNode : SyntaxNode :=
  .mk "case_statement"
    "case (state) IDLE: begin if (A) next_state = S1; else if (B) next_state = S2; else next_state = S3; end endcase"
    10 [c1ItemNode]

/-- The same three-way arm with the whole `if/else if/else` chain parsed
as a single flat `conditional_statement` node (grammars following the
IEEE BNF produce this shape). -/
def c1FlatNode : SyntaxNode :=
  .mk "conditional_statement"
    "if (A) next_state = S1; else if (B) next_state = S2; else next_state = S3;" 11 []

def c1FlatItemNode : SyntaxNode :=
  .mk "case_item"
    "IDLE: begin if (A) next_state = S1; else if (B) next_state = S2; else next_state = S3; end"
    11 [c1FlatNode]

def c1FlatCaseNode : SyntaxNode :=
  .mk "case_statement"
    "case (state) IDLE: begin if (A) next_state = S1; else if (B) next_state = S2; else next_state = S3; end endcase"
    10 [c1FlatItemNode]

/-- Two case items with the same `IDLE` label and no assignments. -/
def c2DupItem1 : SyntaxNode := .mk "case_item" "IDLE: ;" 3 []

def c2DupItem2 : SyntaxNode := .mk "case_item" "IDLE: ;" 4 []

/-- Case statement with a duplicated arm label. -/
def c2DupCase : SyntaxNode :=
  .mk "case_statement" "case (state) IDLE: ; IDLE: ; endcase" 2 [c2DupItem1, c2DupItem2]

/-- Parent text exhibiting the default self-assignment pattern. -/
def c2ParentText : String :=
  "always_comb begin next_state = state; case (state) IDLE: ; IDLE: ; endcase end"

/-- Arm with two sequential direct assignments to the next-state
variable. -/
def c3Item : SyntaxNode :=
  .mk "case_item" "A0: begin next_state = S1; next_state = S2; end" 5 []

def c3Case : SyntaxNode :=
  .mk "case_statement" "case (state) A0: begin next_state = S1; next_state = S2; end endcase"
    4 [c3Item]

/-- Arm with an unconditional assignment overridden by a conditional
one. -/
def c3OverrideIf : SyntaxNode :=
  .mk "conditional_statement" "if (go) next_state = S2;" 6 []

def c3OverrideItem : SyntaxNode :=
  .mk "case_item" "A0: begin next_state = S1; if (go) next_state = S2; end" 6 [c3OverrideIf]

def c3OverrideCase : SyntaxNode :=
  .mk "case_statement"
    "case (state) A0: begin next_state = S1; if (go) next_state = S2; end endcase" 5
    [c3OverrideItem]

/-- A `casez` wildcard arm whose label is no known state name. -/
def c6WildcardItem : SyntaxNode := .mk "case_item" "2'b1?: next_state = IDLE;" 7 []

def c6NormalItem : SyntaxNode := .mk "case_item" "IDLE: next_state = RUN;" 8 []

/-- `casez` statement containing the wildcard arm. -/
def c6CaseWithWildcard : SyntaxNode :=
  .mk "case_statement" "casez (state) 2'b1?: next_state = IDLE; IDLE: next_state = RUN; endcase"
    6 [c6WildcardItem, c6NormalItem]

/-- The same statement with the wildcard arm deleted. -/
def c6CaseWithoutWildcard : SyntaxNode :=
  .mk "case_statement" "casez (state) IDLE: next_state = RUN; endcase" 6 [c6NormalItem]

/-- Arm guarded by a literal-equality idiom; the conditional is only
present in the text (no `conditional_statement` node), exercising the
text fallback parser. -/
def c7Item : SyntaxNode := .mk "case_item" "RUN: if (x == 1'b1) next_state = IDLE;" 9 []

def c7Case : SyntaxNode :=
  .mk "case_statement" "case (state) RUN: if (x == 1'b1) next_state = IDLE; endcase" 8 [c7Item]

/-- Register pair for the untyped fallback assembly. -/
def c8Pair : RegisterPair :=
  { state := { varName := "state", isNextState := false, line := 4 },
    nextState := some { varName := "next_state", isNextState := true, line := 5 } }

def c8CaseItem1 : SyntaxNode := .mk "case_item" "IDLE: next_state = RUN;" 21 []

def c8CaseItem2 : SyntaxNode := .mk "case_item" "RUN: next_state = IDLE;" 22 []

def c8CaseNode : SyntaxNode :=
  .mk "case_statement" "case (state) IDLE: next_state = RUN; RUN: next_state = IDLE; endcase"
    21 [c8CaseItem1, c8CaseItem2]

def c8CombNode : SyntaxNode :=
  .mk "always_construct"
    "always_comb begin case (state) IDLE: next_state = RUN; RUN: next_state = IDLE; endcase end"
    20 [c8CaseNode]

def c8Root : SyntaxNode := .mk "source_file" "" 1 [c8CombNode]

def c8Blocks : List AlwaysBlock :=
  [{ type := SourceBlock.alwaysComb, line := 20, stateAssignments := ["next_state"] }]

/-- FSM with an isolated third state `C`: it appears in no transition
and is therefore absent from the generated graph text. -/
def c9Fsm : FSM :=
  { name := "state_t",
    states := [{ name := "A", line := 1, outputs := [] },
               { name := "B", line := 2, outputs := [] },
               { name := "C", line := 3, outputs := [] }],
    transitions := [{ from_ := "A", to_ := "B", line := 5, sourceBlock := SourceBlock.alwaysComb,
                      outputs := [] }],
    resetState := none, encoding := EncodingType.unknown, stateVarName := "state",
    blockStyle := BlockStyle.twoBlock, confidence := 0.5,
    confidenceBreakdown := { stateDetection := 0.5, transitionExtraction := 0.6,
                             resetDetection := 0.3, outputExtraction := 0.4 },
    warnings := [], errors := [], inputSignals := [], outputSignals := [] }

/-- Fully covered two-state FSM used as the round-trip witness. -/
def c9GoodFsm : FSM :=
  { name := "state_t",
    states := [{ name := "IDLE", line := 1, outputs := [] },
               { name := "RUN", line := 2, outputs := [] }],
    transitions := [{ from_ := "IDLE", to_ := "RUN", condition := some "go",
                      rawCondition := some "go", line := 5,
                      sourceBlock := SourceBlock.alwaysComb, outputs := [] },
                    { from_ := "RUN", to_ := "IDLE", line := 6,
                      sourceBlock := SourceBlock.alwaysComb, outputs := [] }],
    resetState := some "IDLE", encoding := EncodingType.unknown, stateVarName := "state",
    blockStyle := BlockStyle.twoBlock, confidence := 0.5,
    confidenceBreakdown := { stateDetection := 0.5, transitionExtraction := 0.6,
                             resetDetection := 0.3, outputExtraction := 0.4 },
    warnings := [], errors := [], inputSignals := [], outputSignals := [] }

/-- FSM whose reset state `IDLE` has no incoming transition at all. -/
def c5Fsm : FSM :=
  { name := "state_t",
    states := [{ name := "IDLE", line := 1, outputs := [] },
               { name := "RUN", line := 2, outputs := [] }],
    transitions := [{ from_ := "IDLE", to_ := "RUN", line := 5,
                      sourceBlock := SourceBlock.alwaysComb, outputs := [] }],
    resetState := some "IDLE", encoding := EncodingType.unknown, stateVarName := "state",
    blockStyle := BlockStyle.twoBlock, confidence := 0.5,
    confidenceBreakdown := { stateDetection := 0.5, transitionExtraction := 0.6,
                             resetDetection := 0.3, outputExtraction := 0.4 },
    warnings := [], errors := [], inputSignals := [], outputSignals := [] }

/-- FSM with reset `IDLE` (zero incoming transitions) and an orphan
state that is genuinely unreachable. -/
def c5OrphanFsm : FSM :=
  { name := "state_t",
    states := [{ name := "IDLE", line := 1, outputs := [] },
               { name := "RUN", line := 2, outputs := [] },
               { name := "ORPHAN", line := 3, outputs := [] }],
    transitions := [{ from_ := "IDLE", to_ := "RUN", line := 5,
                      sourceBlock := SourceBlock.alwaysComb, outputs := [] }],
    resetState := some "IDLE", encoding := EncodingType.unknown, stateVarName := "state",
    blockStyle := BlockStyle.twoBlock, confidence := 0.5,
    confidenceBreakdown := { stateDetection := 0.5, transitionExtraction := 0.6,
                             resetDetection := 0.3, outputExtraction := 0.4 },
    warnings := [], errors := [], inputSignals := [], outputSignals := [] }

/-- Typed enumeration for the enum-path witness. -/
def c10Enum : EnumDefinition :=
  { typeName := "state_t",
    states := [{ name := "IDLE", line := 3 }, { name := "RUN", line := 3 }], line := 3 }

def c10Pairs : List RegisterPair :=
  [{ state := { varName := "state", typeName := some "state_t", isNextState := false,
                line := 4 },
     nextState := some { varName := "next_state", typeName := some "state_t",
                         isNextState := true, line := 5 } }]

def c10FfNode : SyntaxNode :=
  .mk "always_construct"
    "always_ff @(posedge clk or negedge rst_n) begin if (!rst_n) state <= IDLE; else state <= next_state; end"
    10 []

def c10CaseItem1 : SyntaxNode := .mk "case_item" "IDLE: next_state = RUN;" 21 []

def c10CaseItem2 : SyntaxNode := .mk "case_item" "RUN: next_state = IDLE;" 22 []

def c10CaseNode : SyntaxNode :=
  .mk "case_statement" "case (state) IDLE: next_state = RUN; RUN: next_state = IDLE; endcase"
    21 [c10CaseItem1, c10CaseItem2]

def c10CombNode : SyntaxNode :=
  .mk "always_construct"
    "always_comb begin next_state = state; case (state) IDLE: next_state = RUN; RUN: next_state = IDLE; endcase end"
    20 [c10CaseNode]

def c10Root : SyntaxNode := .mk "source_file" "" 1 [c10FfNode, c10CombNode]

def c10Blocks : List AlwaysBlock :=
  [{ type := SourceBlock.alwaysFF, line := 10, hasReset := true, resetSignal := some "rst_n",
     resetPolarity := some ResetPolarity.activeLow, stateAssignments := ["state"] },
   { type := SourceBlock.alwaysComb, line := 20, stateAssignments := ["next_state"] }]

/-- The synthesized implicit self-loop record pushed by the
default-assignment fold of `extractTransitions`. -/
def implicitLoop (state : String) (line : Nat) (sb : SourceBlock) : FSMTransition :=
  { from_ := state, to_ := state, line := line, isDefault := true, isSelfLoop := true,
    isImplicit := true, sourceBlock := sb, outputs := [] }

/-- The combined per-arm transitions of a case statement, before the
implicit-loop fold (the `flatMap` phase of `extractTransitions`). -/
def armTransitions (items : List CaseItem) (ns : String) (sn : List String)
    (sb : SourceBlock) : List FSMTransition :=
  items.flatMap (fun item => processCaseItem item ns sn sb true)

/-- Identifier characters (alphanumeric or underscore), the shape of
Verilog state names assumed by the round-trip property. -/
def isIdentChar (c : Char) : Bool :=
  c.isAlphanum || c == '_'

/-! ### Claim theorems -/

/-- C1: on a case arm holding a three-way `if / else-if / else` chain
assigning three distinct known states, transition extraction does not
yield exactly three transitions with guards `A`, `!A && B`, `!A && !B`.
With the chain parsed as nested `conditional_statement` nodes the arm
yields nine transitions (the assignment harvest of
`parseConditionalBlock` spans the whole conditional text including the
else branches, and `extractIfBlocks` re-processes the nested node as a
top-level block); with the chain parsed as one flat node it yields three
transitions all guarded `A`. -/
theorem c1_three_way_arm_extraction :
    ((extractTransitions c1CaseNode none "state" "next_state" ["IDLE", "S1", "S2", "S3"]
        SourceBlock.alwaysComb).1.map (fun t => (t.from_, t.to_, t.condition))) =
      [("IDLE", "S1", some "A"), ("IDLE", "S2", some "A"), ("IDLE", "S3", some "A"),
       ("IDLE", "S2", some "!A && B"), ("IDLE", "S3", some "!A && B"),
       ("IDLE", "S3", some "!A && !B"),
       ("IDLE", "S2", some "B"), ("IDLE", "S3", some "B"), ("IDLE", "S3", some "!B")] ∧
    ((extractTransitions c1FlatCaseNode none "state" "next_state" ["IDLE", "S1", "S2", "S3"]
        SourceBlock.alwaysComb).1.map (fun t => (t.from_, t.to_, t.condition))) =
      [("IDLE", "S1", some "A"), ("IDLE", "S2", some "A"), ("IDLE", "S3", some "A")] := by
  decide

/-- C2 counterexample: with the default self-assignment detected and a
state labelling two case arms that both yield no transitions, the state
receives two implicit self-loops, refuting "no state receives more than
one implicit self-loop". -/
theorem c2_duplicate_arm_two_implicit_loops :
    (((extractTransitions c2DupCase (some c2ParentText) "state" "next_state" ["IDLE", "RUN"]
        SourceBlock.alwaysComb).1).filter
      (fun t => t.isImplicit && t.from_ == "IDLE")).length = 2 := by
  decide

/-- C3 counterexample: in an arm with two sequential assignments to the
next-state variable, both produce unconditional transitions (not only
the final one); and in the unconditional-then-conditional override arm
the unconditional transition keeps no guard at all rather than the
negated guard. -/
theorem c3_last_write_wins_refuted :
    ((extractTransitions c3Case none "state" "next_state" ["A0", "S1", "S2"]
        SourceBlock.alwaysComb).1.map (fun t => (t.to_, t.condition))) =
      [("S1", none), ("S2", none)] ∧
    ¬(((extractTransitions c3Case none "state" "next_state" ["A0", "S1", "S2"]
        SourceBlock.alwaysComb).1.map (fun t => t.to_)) = ["S2"]) ∧
    ((extractTransitions c3OverrideCase none "state" "next_state" ["A0", "S1", "S2"]
        SourceBlock.alwaysComb).1.map (fun t => (t.to_, t.condition))) =
      [("S1", none), ("S2", some "go")] ∧
    ((extractTransitions c3OverrideCase none "state" "next_state" ["A0", "S1", "S2"]
        SourceBlock.alwaysComb).1.all
      (fun t => !(t.condition == some "!go" || t.condition == some "!(go)"))) = true := by
  decide

/-- C6: a `casez` wildcard arm whose label names no known state yields
no labels and no transitions; extraction of the case statement with the
wildcard arm equals extraction with the arm deleted, and the result
type of `extractTransitions` carries no diagnostic of any kind, so the
arm is silently dropped (no unsupported-pattern diagnostic is ever
constructed anywhere in the pipeline). -/
theorem c6_wildcard_arm_silently_dropped :
    extractCaseLabels c6WildcardItem "2'b1?: next_state = IDLE;" ["IDLE", "RUN"] = [] ∧
    extractTransitions c6CaseWithWildcard none "state" "next_state" ["IDLE", "RUN"]
        SourceBlock.alwaysComb =
      extractTransitions c6CaseWithoutWildcard none "state" "next_state" ["IDLE", "RUN"]
        SourceBlock.alwaysComb := by
  decide

/-- C7 counterexample: a transition guarded by the literal-equality
idiom `x == 1'b1` keeps that guard verbatim — the simplifier applied to
transition guards (transition-builder's `simplifyCondition`) performs no
literal-equality rewriting; that rewrite exists only in the separate
`condition-simplifier.ts` module, which the guard path never calls. -/
theorem c7_literal_equality_not_simplified :
    ((extractTransitions c7Case none "state" "next_state" ["IDLE", "RUN"]
        SourceBlock.alwaysComb).1.map (fun t => (t.to_, t.condition))) =
      [("IDLE", some "x == 1'b1")] ∧
    simplifyCondition "x == 1'b1" = "x == 1'b1" ∧
    CondSimp.simplifyPatterns "x == 1'b1" = "x" := by
  decide

/-- C8 counterexample: a fallback-assembled FSM has overall confidence
0.5 but its breakdown is `{0.5, 0.6, 0.3, 0.4}` — not flat. -/
theorem c8_fallback_breakdown_not_flat :
    ((buildFSMFromRegisters c8Pair c8Blocks c8Root).map
      (fun f => (f.confidence, f.confidenceBreakdown))) =
      some (0.5, { stateDetection := 0.5, transitionExtraction := 0.6,
                   resetDetection := 0.3, outputExtraction := 0.4 }) ∧
    (0.5 : ℚ) ≠ 0.6 := by
  constructor
  · rfl
  · norm_num

/-- C9 counterexample: an FSM with an isolated state generates a graph
text from which only two of its three states can be re-derived. -/
theorem c9_isolated_state_lost :
    c9Fsm.states.length = 3 ∧ c9Fsm.transitions.length = 1 ∧
    rederivedStateCount (generateMermaid c9Fsm defaultMermaidOptions) = 2 ∧
    rederivedTransitionCount (generateMermaid c9Fsm defaultMermaidOptions) = 1 := by
  decide

/-- C4: for every confidence-scoring input with at least one state, the
overall score and all four breakdown factors lie in `[0,1]`, the overall
score is the weighted sum with weights 0.30/0.40/0.15/0.15, and the
transition factor is `min 1 (coveredStateFraction + 0.2)`. -/
theorem c4_confidence_bounds (enumDef : EnumDefinition) (transitions : List FSMTransition)
    (resetState : Option String) (outputsResult : OutputsResult)
    (_hstates : enumDef.states ≠ []) :
    (0 ≤ (calculateConfidence enumDef transitions resetState outputsResult).1 ∧
      (calculateConfidence enumDef transitions resetState outputsResult).1 ≤ 1) ∧
    (0 ≤ (calculateConfidence enumDef transitions resetState outputsResult).2.stateDetection ∧
      (calculateConfidence enumDef transitions resetState outputsResult).2.stateDetection ≤ 1) ∧
    (0 ≤ (calculateConfidence enumDef transitions resetState
        outputsResult).2.transitionExtraction ∧
      (calculateConfidence enumDef transitions resetState
        outputsResult).2.transitionExtraction ≤ 1) ∧
    (0 ≤ (calculateConfidence enumDef transitions resetState outputsResult).2.resetDetection ∧
      (calculateConfidence enumDef transitions resetState outputsResult).2.resetDetection ≤ 1) ∧
    (0 ≤ (calculateConfidence enumDef transitions resetState outputsResult).2.outputExtraction ∧
      (calculateConfidence enumDef transitions resetState
        outputsResult).2.outputExtraction ≤ 1) ∧
    (calculateConfidence enumDef transitions resetState outputsResult).1 =
      (calculateConfidence enumDef transitions resetState outputsResult).2.stateDetection * 0.3 +
      (calculateConfidence enumDef transitions resetState
        outputsResult).2.transitionExtraction * 0.4 +
      (calculateConfidence enumDef transitions resetState outputsResult).2.resetDetection * 0.15 +
      (calculateConfidence enumDef transitions resetState
        outputsResult).2.outputExtraction * 0.15 ∧
    (calculateConfidence enumDef transitions resetState outputsResult).2.transitionExtraction =
      min 1 (((transitions.map (fun t => t.from_)).dedup.length : ℚ) /
        ((enumDef.states.length : ℚ)) + 0.2) := by
  have hcov : (0 : ℚ) ≤
      ((transitions.map (fun t => t.from_)).dedup.length : ℚ) /
        ((enumDef.states.length : ℚ)) :=
    div_nonneg (by positivity) (by positivity)
  have hte1 : min (1 : ℚ)
      (((transitions.map (fun t => t.from_)).dedup.length : ℚ) /
        ((enumDef.states.length : ℚ)) + 0.2) ≤ 1 := min_le_left _ _
  have hte0 : (0 : ℚ) ≤ min (1 : ℚ)
      (((transitions.map (fun t => t.from_)).dedup.length : ℚ) /
        ((enumDef.states.length : ℚ)) + 0.2) := le_min (by norm_num) (by linarith)
  simp only [calculateConfidence]
  split_ifs <;>
    refine ⟨⟨by linarith, by linarith⟩, ⟨by norm_num, by norm_num⟩, ⟨by linarith, by linarith⟩,
      ⟨by norm_num, by norm_num⟩, ⟨by norm_num, by norm_num⟩, by ring_nf, rfl⟩

/-- C4 witness: the bounds instantiated at a concrete scoring input. -/
theorem c4_confidence_bounds_witness :
    0 ≤ (calculateConfidence c10Enum [] none (OutputsResult.mk [] [] [] [])).1 ∧
    (calculateConfidence c10Enum [] none (OutputsResult.mk [] [] [] [])).1 ≤ 1 :=
  (c4_confidence_bounds c10Enum [] none (OutputsResult.mk [] [] [] [])
    (by decide)).1

/-- The accumulator invariant of the `findUnreachableStates` fold: no
collected state equals the reset state. -/
theorem foldl_unreachable_ne_reset (resetState : Option String) (hasIncoming : List String) :
    ∀ (states : List FSMState) (acc : List String),
      (∀ x ∈ acc, ¬(some x = resetState)) →
      ∀ s ∈ states.foldl (fun unreachable state =>
          if some state.name == resetState then unreachable
          else if !hasIncoming.contains state.name then unreachable ++ [state.name]
          else unreachable) acc,
        ¬(some s = resetState) := by
  intro states
  induction states with
  | nil => intro acc hacc s hs; exact hacc s hs
  | cons st rest ih =>
    intro acc hacc s hs
    rw [List.foldl_cons] at hs
    by_cases h1 : (some st.name == resetState) = true
    · rw [if_pos h1] at hs
      exact ih acc hacc s hs
    · rw [if_neg h1] at hs
      by_cases h2 : (!hasIncoming.contains st.name) = true
      · rw [if_pos h2] at hs
        refine ih (acc ++ [st.name]) ?_ s hs
        intro x hx
        rcases List.mem_append.mp hx with hx | hx
        · exact hacc x hx
        · rcases List.mem_singleton.mp hx with rfl
          intro hcontra
          exact h1 (by simp [hcontra])
      · rw [if_neg h2] at hs
        exact ih acc hacc s hs

/-- C5: a detected reset state never appears in the state list of an
`unreachable_state` warning, regardless of its incoming transitions. -/
theorem c5_reset_never_unreachable (fsm : FSM) (r : String)
    (h : fsm.resetState = some r) :
    ∀ w ∈ validateReachability fsm, w.type = "unreachable_state" →
      r ∉ w.states.getD [] := by
  intro w hw hty
  have hne : ∀ s ∈ findUnreachableStates fsm, ¬(some s = fsm.resetState) := by
    intro s hs
    simp only [findUnreachableStates] at hs
    exact foldl_unreachable_ne_reset fsm.resetState _ fsm.states [] (by simp) s hs
  simp only [validateReachability] at hw
  rcases List.mem_append.mp hw with hu | ht
  · split at hu
    · rcases List.mem_singleton.mp hu with rfl
      simp only [Option.getD_some]
      intro hr
      exact hne r hr h.symm
    · simp at hu
  · split at ht
    · split at ht
      · rcases List.mem_singleton.mp ht with rfl
        simp at hty
      · simp at ht
    · simp at ht

/-- C5 witness: on an FSM whose reset state has zero incoming
transitions and which has a genuinely unreachable state, the emitted
`unreachable_state` warning does not name the reset state. -/
theorem c5_reset_never_unreachable_witness :
    "IDLE" ∉ (FSMWarning.mk "unreachable_state"
      "State(s) ORPHAN have no incoming transitions" none (some ["ORPHAN"])).states.getD [] :=
  c5_reset_never_unreachable c5OrphanFsm "IDLE" rfl
    (FSMWarning.mk "unreachable_state"
      "State(s) ORPHAN have no incoming transitions" none (some ["ORPHAN"]))
    (by decide) rfl

/-- Membership in `setAdd`. -/
theorem mem_setAdd {s : List String} {x y : String} (h : x ∈ setAdd s y) :
    x ∈ s ∨ x = y := by
  unfold setAdd at h
  split at h
  · exact Or.inl h
  · rcases List.mem_append.mp h with h | h
    · exact Or.inl h
    · exact Or.inr (List.mem_singleton.mp h)

/-- Every state name inferred from case labels passes the
uppercase-identifier test. -/
theorem mem_inferStatesFromCase_upper (caseStmt : SyntaxNode) :
    ∀ s ∈ inferStatesFromCase caseStmt, upperLabelFull s = true := by
  unfold inferStatesFromCase
  generalize (findNodesOfType caseStmt "case_item") = items
  suffices haux : ∀ (its : List SyntaxNode) (acc : List String),
      (∀ x ∈ acc, upperLabelFull x = true) →
      ∀ s ∈ its.foldl (fun states item =>
          match indexOfChar ':' (strToList (getNodeText item)) with
          | some colonIndex =>
            if colonIndex > 0 then
              if strLower (strOfList (trimChars ((strToList (getNodeText item)).take
                    colonIndex))) != "default" &&
                  upperLabelFull (strOfList (trimChars ((strToList (getNodeText item)).take
                    colonIndex))) then
                setAdd states (strOfList (trimChars ((strToList (getNodeText item)).take
                  colonIndex)))
              else states
            else states
          | none => states) acc,
        upperLabelFull s = true by
    exact haux items [] (by simp)
  intro its
  induction its with
  | nil => intro acc hacc s hs; exact hacc s hs
  | cons it rest ih =>
    intro acc hacc s hs
    rw [List.foldl_cons] at hs
    refine ih _ ?_ s hs
    intro x hx
    rcases hidx : indexOfChar ':' (strToList (getNodeText it)) with _ | ci
    · rw [hidx] at hx
      exact hacc x hx
    · rw [hidx] at hx
      dsimp only at hx
      by_cases hci : ci > 0
      · rw [if_pos hci] at hx
        by_cases hlab : (strLower (strOfList (trimChars ((strToList (getNodeText it)).take ci)))
            != "default" &&
            upperLabelFull (strOfList (trimChars ((strToList (getNodeText it)).take ci)))) = true
        · rw [if_pos hlab] at hx
          rcases mem_setAdd hx with hx | rfl
          · exact hacc x hx
          · exact (Bool.and_eq_true_iff.mp hlab).2
        · rw [if_neg hlab] at hx
          exact hacc x hx
      · rw [if_neg hci] at hx
        exact hacc x hx

/-- C8 (amended): every FSM produced by the untyped fallback assembly
has overall confidence exactly 0.5, the fixed (non-flat) breakdown
`{0.5, 0.6, 0.3, 0.4}`, and only uppercase-identifier state names
inferred from the case labels. -/
theorem c8_fallback_confidence_fixed (pair : RegisterPair) (alwaysBlocks : List AlwaysBlock)
    (root : SyntaxNode) (fsm : FSM)
    (h : buildFSMFromRegisters pair alwaysBlocks root = some fsm) :
    fsm.confidence = 0.5 ∧
    fsm.confidenceBreakdown =
      { stateDetection := 0.5, transitionExtraction := 0.6,
        resetDetection := 0.3, outputExtraction := 0.4 } ∧
    ∀ st ∈ fsm.states, upperLabelFull st.name = true := by
  unfold buildFSMFromRegisters at h
  dsimp only at h
  repeat' split at h
  all_goals
    first
    | exact Option.noConfusion h
    | (rw [Option.some.injEq] at h
       subst h
       refine ⟨rfl, rfl, ?_⟩
       intro st hst
       simp only [List.mem_map] at hst
       rcases hst with ⟨name, hname, rfl⟩
       exact mem_inferStatesFromCase_upper _ name hname)

/-- C8 witness: the fixed fallback confidence at a concrete module. -/
theorem c8_fallback_confidence_fixed_witness :
    ((buildFSMFromRegisters c8Pair c8Blocks c8Root).getD c9Fsm).confidence = 0.5 ∧
    ((buildFSMFromRegisters c8Pair c8Blocks c8Root).getD c9Fsm).confidenceBreakdown =
      { stateDetection := 0.5, transitionExtraction := 0.6,
        resetDetection := 0.3, outputExtraction := 0.4 } := by
  have h : buildFSMFromRegisters c8Pair c8Blocks c8Root =
      some ((buildFSMFromRegisters c8Pair c8Blocks c8Root).getD c9Fsm) := rfl
  have hmain := c8_fallback_confidence_fixed c8Pair c8Blocks c8Root _ h
  exact ⟨hmain.1, hmain.2.1⟩

/-- The reset factor of the confidence breakdown is 1 or 0.5 according
to reset detection. -/
theorem calculateConfidence_resetDetection (enumDef : EnumDefinition)
    (transitions : List FSMTransition) (resetState : Option String)
    (outputsResult : OutputsResult) :
    (calculateConfidence enumDef transitions resetState outputsResult).2.resetDetection =
      if resetState.isSome then 1 else 0.5 := by
  unfold calculateConfidence
  dsimp only
  split <;> rfl

/-- An FSM with a detected reset state never receives a `no_reset`
warning from the coverage validator. -/
theorem no_reset_warning_absent (fsm : FSM) (md : Option DetectionMetadata) (r : String)
    (h : fsm.resetState = some r) :
    ∀ w ∈ validateCoverage fsm md, w.type ≠ "no_reset" := by
  intro w hw
  unfold validateCoverage at hw
  rw [h] at hw
  dsimp only at hw
  simp only [List.mem_append] at hw
  rcases hw with (hw | hw) | hw
  · split at hw
    · rcases List.mem_singleton.mp hw with rfl
      simp
    · simp at hw
  · simp at hw
  · split at hw
    · split at hw
      · split at hw
        · rcases List.mem_singleton.mp hw with rfl
          simp
        · simp at hw
      · simp at hw
    · simp at hw

/-- C10: every FSM assembled by the enum path from an enumeration with
at least one state has a defined reset state, never receives a
`no_reset` warning, and its reset-detection confidence factor is 1. -/
theorem c10_enum_fsm_has_reset (enumDef : EnumDefinition) (registerPairs : List RegisterPair)
    (alwaysBlocks : List AlwaysBlock) (root : SyntaxNode) (fsm : FSM)
    (md : Option DetectionMetadata)
    (hstates : enumDef.states ≠ [])
    (h : buildFSMFromEnum enumDef registerPairs alwaysBlocks root = some fsm) :
    fsm.resetState.isSome = true ∧
    (∀ w ∈ validateCoverage fsm md, w.type ≠ "no_reset") ∧
    fsm.confidenceBreakdown.resetDetection = 1 := by
  unfold buildFSMFromEnum at h
  dsimp only at h
  repeat' split at h
  all_goals
    first
    | exact Option.noConfusion h
    | (rw [Option.some.injEq] at h
       subst h
       refine ⟨rfl, no_reset_warning_absent _ md _ rfl, ?_⟩
       rw [calculateConfidence_resetDetection]
       rfl)
    | (exfalso; simp_all)

/-- C10 witness: the enum path at a concrete two-state module. -/
theorem c10_enum_fsm_has_reset_witness :
    ((buildFSMFromEnum c10Enum c10Pairs c10Blocks c10Root).getD c9Fsm).resetState.isSome
        = true ∧
    ((buildFSMFromEnum c10Enum c10Pairs
        c10Blocks c10Root).getD c9Fsm).confidenceBreakdown.resetDetection = 1 := by
  have h : buildFSMFromEnum c10Enum c10Pairs c10Blocks c10Root =
      some ((buildFSMFromEnum c10Enum c10Pairs c10Blocks c10Root).getD c9Fsm) := rfl
  have hm := c10_enum_fsm_has_reset c10Enum c10Pairs c10Blocks c10Root _ none
    (by decide) h
  exact ⟨hm.1, hm.2.2⟩

mutual
/-- Invariant of `processConditionalBlock`: every produced transition
leaves the given source state, is explicit, and carries the simplified
form of its own raw condition. -/
theorem processConditionalBlock_inv :
    ∀ (cond : ConditionalBlock) (fs ns : String) (sn : List String) (sb : SourceBlock)
      (acc : String) (hd : Bool) (t : FSMTransition),
      t ∈ processConditionalBlock cond fs ns sn sb acc hd →
      t.from_ = fs ∧ t.isImplicit = false ∧
        t.condition = t.rawCondition.map simplifyCondition
  | .mk c a e n l, fs, ns, sn, sb, acc, hd, t => by
    intro ht
    rw [processConditionalBlock] at ht
    dsimp only at ht
    simp only [List.mem_append] at ht
    rcases ht with (ht | ht) | ht
    · rcases List.mem_filterMap.mp ht with ⟨assign, _ha, hf⟩
      split at hf
      · split at hf
        · rw [Option.some.injEq] at hf
          subst hf
          exact ⟨rfl, rfl, rfl⟩
        · exact Option.noConfusion hf
      · exact Option.noConfusion hf
    · split at ht
      · rcases List.mem_filterMap.mp ht with ⟨assign, _ha, hf⟩
        split at hf
        · split at hf
          · rw [Option.some.injEq] at hf
            subst hf
            exact ⟨rfl, rfl, rfl⟩
          · exact Option.noConfusion hf
        · exact Option.noConfusion hf
      · simp at ht
    · exact processConditionalBlockList_inv n fs ns sn sb _ hd t ht
/-- List version of the invariant. -/
theorem processConditionalBlockList_inv :
    ∀ (conds : List ConditionalBlock) (fs ns : String) (sn : List String) (sb : SourceBlock)
      (acc : String) (hd : Bool) (t : FSMTransition),
      t ∈ processConditionalBlockList conds fs ns sn sb acc hd →
      t.from_ = fs ∧ t.isImplicit = false ∧
        t.condition = t.rawCondition.map simplifyCondition
  | [], _, _, _, _, _, _, t => by
    intro ht
    rw [processConditionalBlockList] at ht
    exact absurd ht (List.not_mem_nil t)
  | cond :: rest, fs, ns, sn, sb, acc, hd, t => by
    intro ht
    rw [processConditionalBlockList] at ht
    rcases List.mem_append.mp ht with ht | ht
    · exact processConditionalBlock_inv cond fs ns sn sb acc hd t ht
    · exact processConditionalBlockList_inv rest fs ns sn sb acc hd t ht
end

/-- Invariant of `processCaseItem`: every produced transition leaves the
arm's label and carries the simplified form of its raw condition;
transitions of a `default` arm do not exist. -/
theorem processCaseItem_inv (item : CaseItem) (ns : String) (sn : List String)
    (sb : SourceBlock) (hd : Bool) (t : FSMTransition)
    (ht : t ∈ processCaseItem item ns sn sb hd) :
    t.from_ = item.label ∧ t.condition = t.rawCondition.map simplifyCondition := by
  unfold processCaseItem at ht
  dsimp only at ht
  split at ht
  · exact absurd ht (List.not_mem_nil t)
  · split at ht
    · rcases List.mem_append.mp ht with ht | ht
      · rcases List.mem_append.mp ht with ht | ht
        · rcases List.mem_filterMap.mp ht with ⟨assign, _ha, hf⟩
          split at hf
          · split at hf
            · rw [Option.some.injEq] at hf
              subst hf
              exact ⟨rfl, rfl⟩
            · exact Option.noConfusion hf
          · exact Option.noConfusion hf
        · rcases List.mem_flatMap.mp ht with ⟨cond, _hc, htc⟩
          rcases processConditionalBlock_inv cond item.label ns sn sb "" hd t htc with
            ⟨h1, _h2, h3⟩
          exact ⟨h1, h3⟩
      · rcases List.mem_singleton.mp ht with rfl
        exact ⟨rfl, rfl⟩
    · rcases List.mem_append.mp ht with ht | ht
      · rcases List.mem_filterMap.mp ht with ⟨assign, _ha, hf⟩
        split at hf
        · split at hf
          · rw [Option.some.injEq] at hf
            subst hf
            exact ⟨rfl, rfl⟩
          · exact Option.noConfusion hf
        · exact Option.noConfusion hf
      · rcases List.mem_flatMap.mp ht with ⟨cond, _hc, htc⟩
        rcases processConditionalBlock_inv cond item.label ns sn sb "" hd t htc with
          ⟨h1, _h2, h3⟩
        exact ⟨h1, h3⟩

/-- Membership through the implicit-self-loop fold of
`extractTransitions`: a transition is either already present or is the
implicit self-loop of one of the states. -/
theorem mem_implicit_fold (line : Nat) (sb : SourceBlock) :
    ∀ (names : List String) (acc : List FSMTransition) (t : FSMTransition),
      t ∈ names.foldl (fun acc state =>
        if (acc.filter (fun t => t.from_ == state)).length == 0 then
          acc ++ [{ from_ := state, to_ := state, line := line, isDefault := true,
                    isSelfLoop := true, isImplicit := true, sourceBlock := sb,
                    outputs := [] }]
        else acc) acc →
      t ∈ acc ∨ ∃ s ∈ names,
        t = { from_ := s, to_ := s, line := line, isDefault := true, isSelfLoop := true,
              isImplicit := true, sourceBlock := sb, outputs := [] } := by
  intro names
  induction names with
  | nil => intro acc t ht; exact Or.inl ht
  | cons s rest ih =>
    intro acc t ht
    rw [List.foldl_cons] at ht
    rcases ih _ t ht with hacc | ⟨s', hs', rfl⟩
    · by_cases h : ((acc.filter (fun t => t.from_ == s)).length == 0) = true
      · rw [if_pos h] at hacc
        rcases List.mem_append.mp hacc with h1 | h1
        · exact Or.inl h1
        · exact Or.inr ⟨s, List.mem_cons_self s rest, List.mem_singleton.mp h1⟩
      · rw [if_neg h] at hacc
        exact Or.inl hacc
    · exact Or.inr ⟨s', List.mem_cons_of_mem s hs', rfl⟩

/-- C7 (amended): every transition's displayed guard is exactly
transition-builder's `simplifyCondition` applied to its raw guard, and
that simplifier collapses `!!x` and `!(!x)`, strips `(x)`, and leaves a
literal-equality idiom such as `x == 1'b1` unchanged. -/
theorem c7_guard_simplifier_applied :
    (∀ (caseStmt : SyntaxNode) (parentText : Option String)
        (stateVarName nextStateVarName : String) (stateNames : List String)
        (sourceBlock : SourceBlock) (t : FSMTransition),
        t ∈ (extractTransitions caseStmt parentText stateVarName nextStateVarName stateNames
          sourceBlock).1 →
        t.condition = t.rawCondition.map simplifyCondition) ∧
    simplifyCondition "!!x" = "x" ∧ simplifyCondition "!(!x)" = "x" ∧
    simplifyCondition "(x)" = "x" ∧ simplifyCondition "x == 1'b1" = "x == 1'b1" := by
  refine ⟨?_, by decide, by decide, by decide, by decide⟩
  intro cs pt sv ns sn sb t ht
  unfold extractTransitions at ht
  dsimp only at ht
  split at ht
  · rcases mem_implicit_fold (getNodeLine cs) sb sn _ t ht with hph | ⟨s, _hs, rfl⟩
    · rcases List.mem_flatMap.mp hph with ⟨item, _hi, hti⟩
      exact (processCaseItem_inv item ns sn sb _ t hti).2
    · rfl
  · rcases List.mem_flatMap.mp ht with ⟨item, _hi, hti⟩
    exact (processCaseItem_inv item ns sn sb _ t hti).2

/-- C7 witness: the simplifier relation at a concretely extracted
transition. -/
theorem c7_guard_simplifier_applied_witness :
    ({ from_ := "RUN", to_ := "IDLE", condition := some "x == 1'b1",
       rawCondition := some "x == 1'b1", line := 9, isSelfLoop := false,
       sourceBlock := SourceBlock.alwaysComb, outputs := [] } : FSMTransition).condition =
      ({ from_ := "RUN", to_ := "IDLE", condition := some "x == 1'b1",
         rawCondition := some "x == 1'b1", line := 9, isSelfLoop := false,
         sourceBlock := SourceBlock.alwaysComb,
         outputs := [] } : FSMTransition).rawCondition.map simplifyCondition :=
  c7_guard_simplifier_applied.1 c7Case none "state" "next_state" ["IDLE", "RUN"]
    SourceBlock.alwaysComb _ (by decide)

/-- C3 (amended): an arm whose body is an unconditional next-state
assignment followed by a conditional override produces exactly two
transitions: the unconditional target with no guard at all, then the
conditional target guarded by the (simplified) condition. -/
theorem c3_override_arm_two_transitions (label cond S1 S2 nextStateVarName : String)
    (l0 l1 l2 : Nat) (stateNames : List String) (sb : SourceBlock) (hd : Bool)
    (hlabel : label ≠ "default") (h1 : S1 ∈ stateNames) (h2 : S2 ∈ stateNames) :
    processCaseItem
      (CaseItem.mk label l0 [Assignment.mk nextStateVarName S1 l1 true]
        [ConditionalBlock.mk cond [Assignment.mk nextStateVarName S2 l2 true] [] [] l2])
      nextStateVarName stateNames sb hd =
      [{ from_ := label, to_ := S1, line := l1, isSelfLoop := label == S1,
         sourceBlock := sb, outputs := [] },
       { from_ := label, to_ := S2, condition := some (simplifyCondition cond),
         rawCondition := some cond, line := l2, isSelfLoop := label == S2,
         sourceBlock := sb, outputs := [] }] := by
  have hb : (label == "default") = false := beq_eq_false_iff_ne.mpr hlabel
  have hc1 : stateNames.contains S1 = true := List.elem_iff.mpr h1
  have hc2 : stateNames.contains S2 = true := List.elem_iff.mpr h2
  unfold processCaseItem
  simp [hb, h1, h2, hc1, hc2, processConditionalBlock, processConditionalBlockList,
    List.filterMap_cons]

/-- C3 witness: the override arm instantiated concretely. -/
theorem c3_override_arm_two_transitions_witness :
    processCaseItem
      (CaseItem.mk "A0" 6 [Assignment.mk "next_state" "S1" 6 true]
        [ConditionalBlock.mk "go" [Assignment.mk "next_state" "S2" 6 true] [] [] 6])
      "next_state" ["A0", "S1", "S2"] SourceBlock.alwaysComb false =
      [{ from_ := "A0", to_ := "S1", line := 6, isSelfLoop := false,
         sourceBlock := SourceBlock.alwaysComb, outputs := [] },
       { from_ := "A0", to_ := "S2", condition := some (simplifyCondition "go"),
         rawCondition := some "go", line := 6, isSelfLoop := false,
         sourceBlock := SourceBlock.alwaysComb, outputs := [] }] :=
  c3_override_arm_two_transitions "A0" "go" "S1" "S2" "next_state" 6 6 6
    ["A0", "S1", "S2"] SourceBlock.alwaysComb false (by decide) (by decide) (by decide)

/-- Every label produced by `extractCaseLabels` is a known state name or
`default`. -/
theorem extractCaseLabels_mem (itemNode : SyntaxNode) (itemText : String)
    (stateNames : List String) :
    ∀ l ∈ extractCaseLabels itemNode itemText stateNames, l ∈ stateNames ∨ l = "default" := by
  intro l hl
  unfold extractCaseLabels at hl
  split at hl
  · exact absurd hl (List.not_mem_nil l)
  · split at hl
    · rcases List.mem_filterMap.mp hl with ⟨lab, _hlab, hf⟩
      split at hf
      · rw [Option.some.injEq] at hf
        subst hf
        exact Or.inl (List.elem_iff.mp (by assumption))
      · split at hf
        · rw [Option.some.injEq] at hf
          subst hf
          exact Or.inr rfl
        · split at hf
          · split at hf
            · rw [Option.some.injEq] at hf
              subst hf
              exact Or.inl (List.elem_iff.mp (by assumption))
            · exact Option.noConfusion hf
          · exact Option.noConfusion hf
    · exact absurd hl (List.not_mem_nil l)

/-- Every case item extracted from a case statement is labelled by a
known state name or `default`. -/
theorem extractCaseItems_label (caseStmt : SyntaxNode) (stateNames : List String)
    (nextStateVarName : String) :
    ∀ item ∈ extractCaseItems caseStmt stateNames nextStateVarName,
      item.label ∈ stateNames ∨ item.label = "default" := by
  intro item hitem
  unfold extractCaseItems at hitem
  dsimp only at hitem
  split at hitem
  · split at hitem
    · rcases List.mem_append.mp hitem with h | h
      · rcases List.mem_flatMap.mp h with ⟨node, _hn, hmap⟩
        rcases List.mem_map.mp hmap with ⟨lab, hlab, rfl⟩
        exact extractCaseLabels_mem node (getNodeText node) stateNames lab hlab
      · rcases List.mem_singleton.mp h with rfl
        exact Or.inr rfl
    · rcases List.mem_flatMap.mp hitem with ⟨node, _hn, hmap⟩
      rcases List.mem_map.mp hmap with ⟨lab, hlab, rfl⟩
      exact extractCaseLabels_mem node (getNodeText node) stateNames lab hlab
  · rcases List.mem_flatMap.mp hitem with ⟨node, _hn, hmap⟩
    rcases List.mem_map.mp hmap with ⟨lab, hlab, rfl⟩
    exact extractCaseLabels_mem node (getNodeText node) stateNames lab hlab

/-- A `default` arm produces no transitions. -/
theorem processCaseItem_default (item : CaseItem) (ns : String) (sn : List String)
    (sb : SourceBlock) (hd : Bool) (hl : item.label = "default") :
    processCaseItem item ns sn sb hd = [] := by
  unfold processCaseItem
  dsimp only
  rw [if_pos (by rw [hl]; rfl)]

/-- With the default-assignment pattern detected, a non-`default` arm
yields a nonempty transition list whose members all leave the arm's
label and which is either all-explicit or exactly one implicit
self-loop. -/
theorem processCaseItem_struct (item : CaseItem) (ns : String) (sn : List String)
    (sb : SourceBlock) (hl : item.label ≠ "default") :
    (∀ t ∈ processCaseItem item ns sn sb true, t.from_ = item.label) ∧
    processCaseItem item ns sn sb true ≠ [] ∧
    ((∀ t ∈ processCaseItem item ns sn sb true, t.isImplicit = false) ∨
      processCaseItem item ns sn sb true =
        [{ from_ := item.label, to_ := item.label, line := item.line, isDefault := true,
           isSelfLoop := true, isImplicit := true, sourceBlock := sb, outputs := [] }]) := by
  refine ⟨fun t ht => (processCaseItem_inv item ns sn sb true t ht).1, ?_, ?_⟩
  · unfold processCaseItem
    dsimp only
    rw [if_neg (by simp [hl])]
    split
    · simp
    · rename_i hcond
      intro hnil
      rw [hnil] at hcond
      simp at hcond
  · unfold processCaseItem
    dsimp only
    rw [if_neg (by simp [hl])]
    split
    · right
      rename_i hcond
      rw [Bool.and_eq_true, beq_iff_eq, List.length_eq_zero] at hcond
      rw [hcond.1]
      rfl
    · left
      intro t ht
      rcases List.mem_append.mp ht with ht | ht
      · rcases List.mem_filterMap.mp ht with ⟨assign, _ha, hf⟩
        split at hf
        · split at hf
          · rw [Option.some.injEq] at hf
            subst hf
            rfl
          · exact Option.noConfusion hf
        · exact Option.noConfusion hf
      · rcases List.mem_flatMap.mp ht with ⟨cond, _hc, htc⟩
        exact (processConditionalBlock_inv cond item.label ns sn sb "" true t htc).2.1

/-- An implicit transition of a case arm is its self-loop. -/
theorem processCaseItem_implicit_shape (item : CaseItem) (ns : String) (sn : List String)
    (sb : SourceBlock) (hd : Bool) (t : FSMTransition)
    (ht : t ∈ processCaseItem item ns sn sb hd) (himp : t.isImplicit = true) :
    t.isSelfLoop = true ∧ t.to_ = t.from_ := by
  unfold processCaseItem at ht
  dsimp only at ht
  split at ht
  · exact absurd ht (List.not_mem_nil t)
  · split at ht
    · rcases List.mem_append.mp ht with ht | ht
      · rcases List.mem_append.mp ht with ht | ht
        · rcases List.mem_filterMap.mp ht with ⟨assign, _ha, hf⟩
          split at hf
          · split at hf
            · rw [Option.some.injEq] at hf
              subst hf
              exact absurd himp (by simp)
            · exact Option.noConfusion hf
          · exact Option.noConfusion hf
        · rcases List.mem_flatMap.mp ht with ⟨cond, _hc, htc⟩
          have := (processConditionalBlock_inv cond item.label ns sn sb "" hd t htc).2.1
          rw [this] at himp
          exact Bool.noConfusion himp
      · rcases List.mem_singleton.mp ht with rfl
        exact ⟨rfl, rfl⟩
    · rcases List.mem_append.mp ht with ht | ht
      · rcases List.mem_filterMap.mp ht with ⟨assign, _ha, hf⟩
        split at hf
        · split at hf
          · rw [Option.some.injEq] at hf
            subst hf
            exact absurd himp (by simp)
          · exact Option.noConfusion hf
        · exact Option.noConfusion hf
      · rcases List.mem_flatMap.mp ht with ⟨cond, _hc, htc⟩
        have := (processConditionalBlock_inv cond item.label ns sn sb "" hd t htc).2.1
        rw [this] at himp
        exact Bool.noConfusion himp

/-- If no item of the list carries label `s` (apart from `default`
arms, which yield nothing), the combined arm transitions contain
nothing leaving `s`. -/
theorem armTransitions_filter_nil (ns : String) (sn : List String) (sb : SourceBlock)
    (s : String) :
    ∀ (items : List CaseItem),
      (∀ i ∈ items, i.label = "default" ∨ i.label ≠ s) →
      (armTransitions items ns sn sb).filter (fun t => t.from_ == s) = [] := by
  intro items
  induction items with
  | nil => intro _; rfl
  | cons item rest ih =>
    intro h
    rw [armTransitions, List.flatMap_cons, List.filter_append]
    rw [show rest.flatMap (fun item => processCaseItem item ns sn sb true) =
      armTransitions rest ns sn sb from rfl]
    rw [ih (fun i hi => h i (List.mem_cons_of_mem item hi)), List.append_nil]
    rcases h item (List.mem_cons_self item rest) with hd | hne
    · rw [processCaseItem_default item ns sn sb true hd]
      rfl
    · rw [List.filter_eq_nil_iff]
      intro t ht
      have hf := (processCaseItem_inv item ns sn sb true t ht).1
      simp [hf, hne]

/-- Per-state trichotomy for the combined arm transitions under
duplicate-free non-`default` labels: a state's outgoing transitions are
empty, nonempty and all explicit, or exactly one implicit self-loop. -/
theorem armTransitions_filter_trichotomy (ns : String) (sn : List String) (sb : SourceBlock)
    (s : String) :
    ∀ (items : List CaseItem),
      (((items.map (fun i => i.label)).filter (fun l => l != "default")).Nodup) →
      (armTransitions items ns sn sb).filter (fun t => t.from_ == s) = [] ∨
      ((armTransitions items ns sn sb).filter (fun t => t.from_ == s) ≠ [] ∧
        ∀ t ∈ (armTransitions items ns sn sb).filter (fun t => t.from_ == s),
          t.isImplicit = false) ∨
      (∃ l, (armTransitions items ns sn sb).filter (fun t => t.from_ == s) =
        [implicitLoop s l sb]) := by
  intro items
  induction items with
  | nil => intro _; exact Or.inl rfl
  | cons item rest ih =>
    intro hnd
    rw [armTransitions, List.flatMap_cons, List.filter_append]
    rw [show rest.flatMap (fun item => processCaseItem item ns sn sb true) =
      armTransitions rest ns sn sb from rfl]
    by_cases hd : item.label = "default"
    · rw [processCaseItem_default item ns sn sb true hd]
      have hnd' : ((rest.map (fun i => i.label)).filter (fun l => l != "default")).Nodup := by
        rw [List.map_cons, List.filter_cons, if_neg (by simp [hd])] at hnd
        exact hnd
      simpa using ih hnd'
    · rw [List.map_cons, List.filter_cons, if_pos (by simp [hd])] at hnd
      rcases List.nodup_cons.mp hnd with ⟨hnotmem, hnd'⟩
      by_cases hs : item.label = s
      · subst hs
        have hrest : (armTransitions rest ns sn sb).filter
            (fun t => t.from_ == item.label) = [] := by
          apply armTransitions_filter_nil
          intro i hi
          by_cases hdi : i.label = "default"
          · exact Or.inl hdi
          · right
            intro heq
            exact hnotmem (List.mem_filter.mpr
              ⟨List.mem_map.mpr ⟨i, hi, heq⟩, by simp [hd]⟩)
        rw [hrest, List.append_nil]
        have hfull : (processCaseItem item ns sn sb true).filter
            (fun t => t.from_ == item.label) = processCaseItem item ns sn sb true := by
          rw [List.filter_eq_self]
          intro t ht
          simp [(processCaseItem_struct item ns sn sb hd).1 t ht]
        rw [hfull]
        rcases processCaseItem_struct item ns sn sb hd with ⟨_, hne, hexp | himp⟩
        · exact Or.inr (Or.inl ⟨hne, hexp⟩)
        · exact Or.inr (Or.inr ⟨item.line, himp⟩)
      · have hhead : (processCaseItem item ns sn sb true).filter
            (fun t => t.from_ == s) = [] := by
          rw [List.filter_eq_nil_iff]
          intro t ht
          simp [(processCaseItem_struct item ns sn sb hd).1 t ht, hs]
        rw [hhead, List.nil_append]
        exact ih hnd'

/-- With pairwise-distinct state names the implicit-loop fold appends
exactly one self-loop per state with no outgoing transition in the
accumulator. -/
theorem implicit_fold_eq (line : Nat) (sb : SourceBlock) :
    ∀ (names : List String) (acc : List FSMTransition), names.Nodup →
      names.foldl (fun acc state =>
        if (acc.filter (fun t => t.from_ == state)).length == 0 then
          acc ++ [{ from_ := state, to_ := state, line := line, isDefault := true,
                    isSelfLoop := true, isImplicit := true, sourceBlock := sb,
                    outputs := [] }]
        else acc) acc =
      acc ++ (names.filter (fun state =>
        (acc.filter (fun t => t.from_ == state)).length == 0)).map
          (fun state => implicitLoop state line sb) := by
  intro names
  induction names with
  | nil => intro acc _; simp
  | cons s rest ih =>
    intro acc hnd
    rcases List.nodup_cons.mp hnd with ⟨hnotmem, hnd'⟩
    rw [List.foldl_cons, List.filter_cons]
    by_cases h : ((acc.filter (fun t => t.from_ == s)).length == 0) = true
    · rw [if_pos h, if_pos h, ih _ hnd', List.map_cons, List.append_assoc,
        List.singleton_append]
      have hcongr : rest.filter (fun state =>
          ((acc ++ [implicitLoop s line sb]).filter
            (fun t => t.from_ == state)).length == 0) =
          rest.filter (fun state =>
            (acc.filter (fun t => t.from_ == state)).length == 0) := by
        apply List.filter_congr
        intro x hx
        have hxs : s ≠ x := fun he => hnotmem (he ▸ hx)
        have hfalse : ((implicitLoop s line sb).from_ == x) = false :=
          beq_eq_false_iff_ne.mpr hxs
        rw [List.filter_append, List.filter_singleton, hfalse, Bool.cond_false,
          List.append_nil]
      exact congrArg (fun l => acc ++ implicitLoop s line sb ::
        List.map (fun state => implicitLoop state line sb) l) hcongr
    · rw [if_neg h, if_neg h, ih _ hnd']

/-- When the default self-assignment pattern was detected and the state
list has no duplicates, the extracted transitions are the per-arm
transitions followed by one implicit self-loop for each state with no
per-arm outgoing transition. -/
theorem extractTransitions_hd_form (caseStmt : SyntaxNode) (parentText : Option String)
    (stateVarName nextStateVarName : String) (stateNames : List String)
    (sb : SourceBlock) (hnd : stateNames.Nodup)
    (hhd : (extractTransitions caseStmt parentText stateVarName nextStateVarName
      stateNames sb).2 = true) :
    (extractTransitions caseStmt parentText stateVarName nextStateVarName
      stateNames sb).1 =
    armTransitions (extractCaseItems caseStmt stateNames nextStateVarName)
      nextStateVarName stateNames sb ++
    (stateNames.filter (fun state =>
      ((armTransitions (extractCaseItems caseStmt stateNames nextStateVarName)
        nextStateVarName stateNames sb).filter
          (fun t => t.from_ == state)).length == 0)).map
      (fun state => implicitLoop state (getNodeLine caseStmt) sb) := by
  unfold extractTransitions at hhd ⊢
  dsimp only at hhd ⊢
  rw [hhd]
  rw [if_pos rfl]
  exact implicit_fold_eq (getNodeLine caseStmt) sb stateNames _ hnd

/-- A list's length splits across a boolean predicate. -/
theorem length_filter_split (l : List FSMTransition) (p : FSMTransition → Bool) :
    l.length = (l.filter p).length + (l.filter (fun t => !(p t))).length := by
  induction l with
  | nil => rfl
  | cons a l ih =>
    by_cases h : p a = true <;> simp [List.filter_cons, h, ih] <;> omega

/-- Transition-list length is the sum over duplicate-free keys of the
per-source filtered lengths. -/
theorem length_eq_sum_filter_from :
    ∀ (keys : List String), keys.Nodup → ∀ (l : List FSMTransition),
      (∀ t ∈ l, t.from_ ∈ keys) →
      l.length = (keys.map (fun s => (l.filter (fun t => t.from_ == s)).length)).sum := by
  intro keys
  induction keys with
  | nil =>
    intro _ l hl
    cases l with
    | nil => rfl
    | cons t ts => exact absurd (hl t (List.mem_cons_self t ts)) (List.not_mem_nil _)
  | cons s rest ih =>
    intro hnd l hl
    rcases List.nodup_cons.mp hnd with ⟨hnm, hnd'⟩
    rw [List.map_cons, List.sum_cons,
      length_filter_split l (fun t => t.from_ == s)]
    have hmem' : ∀ t ∈ l.filter (fun t => !(t.from_ == s)), t.from_ ∈ rest := by
      intro t ht
      rcases List.mem_filter.mp ht with ⟨htl, htp⟩
      rcases List.mem_cons.mp (hl t htl) with h | h
      · rw [h] at htp
        simp at htp
      · exact h
    rw [ih hnd' _ hmem']
    apply congrArg (Nat.add _)
    apply congrArg List.sum
    apply List.map_congr_left
    intro s' hs'
    have hss' : s ≠ s' := fun he => hnm (he ▸ hs')
    rw [List.filter_filter]
    congr 1
    apply List.filter_congr
    intro t _
    by_cases hts : (t.from_ == s') = true
    · rw [hts, Bool.true_and]
      have : (t.from_ == s) = false :=
        beq_eq_false_iff_ne.mpr (fun he => hss' (he ▸ (beq_iff_eq.mp hts)))
      rw [this]
      rfl
    · rw [Bool.not_eq_true] at hts
      rw [hts, Bool.false_and]

/-- Summing `if q s then 0 else 1` over keys counts the keys where `q`
fails. -/
theorem sum_if_split (keys : List String) (q : String → Bool) :
    (keys.map (fun s => if q s then 0 else 1)).sum =
      keys.length - (keys.filter q).length := by
  induction keys with
  | nil => rfl
  | cons s rest ih =>
    have hle := List.length_filter_le q rest
    rw [List.map_cons, List.sum_cons, List.filter_cons]
    by_cases h : q s = true
    · rw [if_pos h, if_pos h]
      simp only [List.length_cons, ih]
      omega
    · rw [if_neg h, if_neg h]
      simp only [List.length_cons, ih]
      omega

/-- In a duplicate-free list, filtering for one element yields length
one or zero according to membership. -/
theorem filter_beq_length_nodup :
    ∀ (l : List String), l.Nodup → ∀ (s : String),
      (l.filter (fun x => x == s)).length = if s ∈ l then 1 else 0 := by
  intro l
  induction l with
  | nil => intro _ s; simp
  | cons a rest ih =>
    intro hnd s
    rcases List.nodup_cons.mp hnd with ⟨hnm, hnd'⟩
    rw [List.filter_cons]
    by_cases h : a = s
    · subst h
      rw [if_pos (by simp)]
      have : rest.filter (fun x => x == a) = [] := by
        rw [List.filter_eq_nil_iff]
        intro x hx hxa
        exact hnm ((beq_iff_eq.mp hxa) ▸ hx)
      rw [this, if_pos (List.mem_cons_self a rest)]
      rfl
    · rw [if_neg (by simp [h])]
      rw [ih hnd' s]
      by_cases hs : s ∈ rest
      · rw [if_pos hs, if_pos (List.mem_cons_of_mem a hs)]
      · rw [if_neg hs, if_neg (by
          intro hmem
          rcases List.mem_cons.mp hmem with he | hm
          · exact h he.symm
          · exact hs hm)]

/-- Every implicit per-arm transition leaves a known state. -/
theorem armTransitions_implicit_from_mem (caseStmt : SyntaxNode) (sn : List String)
    (ns : String) (sb : SourceBlock) :
    ∀ t ∈ armTransitions (extractCaseItems caseStmt sn ns) ns sn sb,
      t.isImplicit = true → t.from_ ∈ sn := by
  intro t ht himp
  rcases List.mem_flatMap.mp ht with ⟨item, hitem, htc⟩
  have hf := (processCaseItem_inv item ns sn sb true t htc).1
  rcases extractCaseItems_label caseStmt sn ns item hitem with h | h
  · exact hf ▸ h
  · rw [processCaseItem_default item ns sn sb true h] at htc
    exact absurd htc (List.not_mem_nil t)

/-- Generic form of the previous lemma, for an arbitrary item list whose
labels are known states or `default`. -/
theorem armTransitions_implicit_from (ns : String) (sn : List String) (sb : SourceBlock)
    (items : List CaseItem) (hlab : ∀ i ∈ items, i.label ∈ sn ∨ i.label = "default") :
    ∀ t ∈ armTransitions items ns sn sb, t.isImplicit = true → t.from_ ∈ sn := by
  intro t ht _
  rcases List.mem_flatMap.mp ht with ⟨item, hitem, htc⟩
  have hf := (processCaseItem_inv item ns sn sb true t htc).1
  rcases hlab item hitem with h | h
  · exact hf ▸ h
  · rw [processCaseItem_default item ns sn sb true h] at htc
    exact absurd htc (List.not_mem_nil t)

/-- Core implicit-self-loop accounting for the extracted transition list
in its `arm transitions ++ synthesized loops` normal form. -/
theorem c2_core (ns : String) (sn : List String) (sb : SourceBlock) (line : Nat)
    (items : List CaseItem) (A L ts : List FSMTransition)
    (hA : A = armTransitions items ns sn sb)
    (hL : L = (sn.filter (fun state =>
      (A.filter (fun t => t.from_ == state)).length == 0)).map
      (fun state => implicitLoop state line sb))
    (hts : ts = A ++ L)
    (hnd : sn.Nodup)
    (hlab : ∀ i ∈ items, i.label ∈ sn ∨ i.label = "default")
    (hndL : ((items.map (fun i => i.label)).filter (fun l => l != "default")).Nodup) :
    (∀ s ∈ sn, (ts.filter (fun t => t.isImplicit && t.from_ == s)).length =
      if ts.any (fun t => !t.isImplicit && t.from_ == s) then 0 else 1) ∧
    (∀ s, s ∉ sn → (ts.filter (fun t => t.isImplicit && t.from_ == s)).length = 0) ∧
    (∀ t ∈ ts, t.isImplicit = true → t.isSelfLoop = true ∧ t.to_ = t.from_) ∧
    (ts.filter (fun t => t.isImplicit)).length =
      sn.length - (sn.filter (fun s =>
        ts.any (fun t => !t.isImplicit && t.from_ == s))).length := by
  subst hts
  have htri : ∀ s, A.filter (fun t => t.from_ == s) = [] ∨
      (A.filter (fun t => t.from_ == s) ≠ [] ∧
        ∀ t ∈ A.filter (fun t => t.from_ == s), t.isImplicit = false) ∨
      (∃ l0, A.filter (fun t => t.from_ == s) = [implicitLoop s l0 sb]) := by
    intro s
    rw [hA]
    exact armTransitions_filter_trichotomy ns sn sb s items hndL
  have himpmem : ∀ t ∈ A, t.isImplicit = true → t.from_ ∈ sn := by
    rw [hA]
    exact armTransitions_implicit_from ns sn sb items hlab
  have hLimp : ∀ t ∈ L, t.isImplicit = true := by
    rw [hL]
    intro t ht
    rcases List.mem_map.mp ht with ⟨st, _, rfl⟩
    rfl
  have hLfrom : ∀ t ∈ L, t.from_ ∈ sn := by
    rw [hL]
    intro t ht
    rcases List.mem_map.mp ht with ⟨st, hst, rfl⟩
    exact (List.mem_filter.mp hst).1
  have hLcount : ∀ s, (L.filter (fun t => t.isImplicit && t.from_ == s)).length =
      if s ∈ sn.filter (fun state =>
        (A.filter (fun t => t.from_ == state)).length == 0) then 1 else 0 := by
    intro s
    rw [hL, List.filter_map, List.length_map]
    have hcongr : (sn.filter (fun state =>
        (A.filter (fun t => t.from_ == state)).length == 0)).filter
          ((fun t => t.isImplicit && t.from_ == s) ∘ (fun state => implicitLoop state line sb)) =
        (sn.filter (fun state =>
          (A.filter (fun t => t.from_ == state)).length == 0)).filter (fun x => x == s) := by
      apply List.filter_congr
      intro st _
      rfl
    rw [hcongr]
    exact filter_beq_length_nodup _ (hnd.filter _) s
  have hAfuse : ∀ s, A.filter (fun t => t.isImplicit && t.from_ == s) =
      (A.filter (fun t => t.from_ == s)).filter (fun t => t.isImplicit) := by
    intro s
    rw [List.filter_filter]
  have hanyL : ∀ s, L.any (fun t => !t.isImplicit && t.from_ == s) = false := by
    intro s
    rw [List.any_eq_false]
    intro t ht h
    rw [Bool.and_eq_true] at h
    have := h.1
    rw [hLimp t ht] at this
    exact Bool.noConfusion this
  have hanyA : ∀ s, (A ++ L).any (fun t => !t.isImplicit && t.from_ == s) =
      A.any (fun t => !t.isImplicit && t.from_ == s) := by
    intro s
    rw [List.any_append, hanyL s, Bool.or_false]
  have hcount : ∀ s ∈ sn, ((A ++ L).filter (fun t => t.isImplicit && t.from_ == s)).length =
      if (A ++ L).any (fun t => !t.isImplicit && t.from_ == s) then 0 else 1 := by
    intro s hs
    rw [List.filter_append, List.length_append, hLcount s, hanyA s]
    rcases htri s with hf | ⟨hne, hexp⟩ | ⟨l0, hf⟩
    · rw [hAfuse s, hf]
      have hps : ((A.filter (fun t => t.from_ == s)).length == 0) = true := by
        rw [hf]
        rfl
      have hmem : s ∈ sn.filter (fun state =>
          (A.filter (fun t => t.from_ == state)).length == 0) :=
        List.mem_filter.mpr ⟨hs, hps⟩
      rw [if_pos hmem]
      have hAany : A.any (fun t => !t.isImplicit && t.from_ == s) = false := by
        rw [List.any_eq_false]
        intro t ht h
        rw [Bool.and_eq_true] at h
        have hmemF : t ∈ A.filter (fun t => t.from_ == s) := List.mem_filter.mpr ⟨ht, h.2⟩
        rw [hf] at hmemF
        exact absurd hmemF (List.not_mem_nil t)
      rw [hAany, if_neg (by simp)]
      rfl
    · rw [hAfuse s]
      have hAimp : (A.filter (fun t => t.from_ == s)).filter (fun t => t.isImplicit) = [] := by
        rw [List.filter_eq_nil_iff]
        intro t ht
        rw [hexp t ht]
        simp
      rw [hAimp]
      have hps : ((A.filter (fun t => t.from_ == s)).length == 0) = false :=
        beq_eq_false_iff_ne.mpr (fun h0 => hne (List.length_eq_zero.mp h0))
      have hmem : s ∉ sn.filter (fun state =>
          (A.filter (fun t => t.from_ == state)).length == 0) := by
        intro hmem
        have := (List.mem_filter.mp hmem).2
        rw [hps] at this
        exact Bool.noConfusion this
      rw [if_neg hmem]
      have hAany : A.any (fun t => !t.isImplicit && t.from_ == s) = true := by
        rcases List.exists_mem_of_ne_nil _ hne with ⟨t, htF⟩
        rcases List.mem_filter.mp htF with ⟨htA, hfrom⟩
        rw [List.any_eq_true]
        refine ⟨t, htA, ?_⟩
        rw [Bool.and_eq_true]
        refine ⟨?_, hfrom⟩
        rw [hexp t htF]
        rfl
      rw [hAany, if_pos rfl]
      rfl
    · rw [hAfuse s, hf]
      have hps : ((A.filter (fun t => t.from_ == s)).length == 0) = false := by
        rw [hf]
        rfl
      have hmem : s ∉ sn.filter (fun state =>
          (A.filter (fun t => t.from_ == state)).length == 0) := by
        intro hmem
        have := (List.mem_filter.mp hmem).2
        rw [hps] at this
        exact Bool.noConfusion this
      rw [if_neg hmem]
      have hAany : A.any (fun t => !t.isImplicit && t.from_ == s) = false := by
        rw [List.any_eq_false]
        intro t ht h
        rw [Bool.and_eq_true] at h
        have htF : t ∈ A.filter (fun t => t.from_ == s) := List.mem_filter.mpr ⟨ht, h.2⟩
        rw [hf] at htF
        rcases List.mem_singleton.mp htF with rfl
        have := h.1
        exact absurd this (by simp [implicitLoop])
      rw [hAany, if_neg (by simp)]
      rfl
  refine ⟨hcount, ?_, ?_, ?_⟩
  · intro s hs
    rw [List.filter_append, List.length_append]
    have h1 : A.filter (fun t => t.isImplicit && t.from_ == s) = [] := by
      rw [List.filter_eq_nil_iff]
      intro t ht h
      rw [Bool.and_eq_true] at h
      exact hs ((beq_iff_eq.mp h.2) ▸ himpmem t ht h.1)
    have h2 : L.filter (fun t => t.isImplicit && t.from_ == s) = [] := by
      rw [List.filter_eq_nil_iff]
      intro t ht h
      rw [Bool.and_eq_true] at h
      exact hs ((beq_iff_eq.mp h.2) ▸ hLfrom t ht)
    rw [h1, h2]
    rfl
  · intro t ht himp
    rcases List.mem_append.mp ht with htA | htL
    · rw [hA] at htA
      rcases List.mem_flatMap.mp htA with ⟨item, _hitem, htc⟩
      exact processCaseItem_implicit_shape item ns sn sb true t htc himp
    · have := htL
      rw [hL] at this
      rcases List.mem_map.mp this with ⟨st, _, rfl⟩
      exact ⟨rfl, rfl⟩
  · have hfromm : ∀ t ∈ (A ++ L).filter (fun t => t.isImplicit), t.from_ ∈ sn := by
      intro t ht
      rcases List.mem_filter.mp ht with ⟨htl, himp⟩
      rcases List.mem_append.mp htl with htA | htL
      · exact himpmem t htA himp
      · exact hLfrom t htL
    rw [length_eq_sum_filter_from sn hnd _ hfromm,
      ← sum_if_split sn (fun s => (A ++ L).any (fun t => !t.isImplicit && t.from_ == s))]
    apply congrArg List.sum
    apply List.map_congr_left
    intro s hs
    rw [List.filter_filter]
    have hflip : (A ++ L).filter (fun a => a.from_ == s && a.isImplicit) =
        (A ++ L).filter (fun t => t.isImplicit && t.from_ == s) :=
      List.filter_congr (fun t _ => Bool.and_comm _ _)
    rw [hflip]
    exact hcount s hs

/-- C2 (amended): provided the state names are pairwise distinct and no
state labels more than one case arm, whenever the default
self-assignment pattern is detected `extractTransitions` synthesizes
exactly one implicit transition for every state with no explicit
outgoing transition and none for states that have one, no implicit
transition leaves an unknown source, every implicit transition is a
self-loop, and the number of implicit transitions equals the number of
states minus the number of states with an explicit outgoing
transition. -/
theorem c2_implicit_selfloop_completeness (caseStmt : SyntaxNode)
    (parentText : Option String) (stateVarName nextStateVarName : String)
    (stateNames : List String) (sb : SourceBlock)
    (hhd : (extractTransitions caseStmt parentText stateVarName nextStateVarName
      stateNames sb).2 = true)
    (hnd : stateNames.Nodup)
    (hndL : (((extractCaseItems caseStmt stateNames nextStateVarName).map
      (fun i => i.label)).filter (fun l => l != "default")).Nodup) :
    (∀ s ∈ stateNames,
      ((extractTransitions caseStmt parentText stateVarName nextStateVarName
        stateNames sb).1.filter (fun t => t.isImplicit && t.from_ == s)).length =
      if (extractTransitions caseStmt parentText stateVarName nextStateVarName
        stateNames sb).1.any (fun t => !t.isImplicit && t.from_ == s) then 0 else 1) ∧
    (∀ s, s ∉ stateNames →
      ((extractTransitions caseStmt parentText stateVarName nextStateVarName
        stateNames sb).1.filter (fun t => t.isImplicit && t.from_ == s)).length = 0) ∧
    (∀ t ∈ (extractTransitions caseStmt parentText stateVarName nextStateVarName
        stateNames sb).1, t.isImplicit = true → t.isSelfLoop = true ∧ t.to_ = t.from_) ∧
    ((extractTransitions caseStmt parentText stateVarName nextStateVarName
        stateNames sb).1.filter (fun t => t.isImplicit)).length =
      stateNames.length - (stateNames.filter (fun s =>
        (extractTransitions caseStmt parentText stateVarName nextStateVarName
          stateNames sb).1.any (fun t => !t.isImplicit && t.from_ == s))).length :=
  c2_core nextStateVarName stateNames sb (getNodeLine caseStmt)
    (extractCaseItems caseStmt stateNames nextStateVarName) _ _ _ rfl rfl
    (extractTransitions_hd_form caseStmt parentText stateVarName nextStateVarName
      stateNames sb hnd hhd)
    hnd (extractCaseItems_label caseStmt stateNames nextStateVarName) hndL

/-- C2 witness: a one-armed case statement under the default
self-assignment pattern, instantiating the implicit-transition count. -/
theorem c2_implicit_selfloop_completeness_witness :
    ((extractTransitions
        (SyntaxNode.mk "case_statement" "case (state) IDLE: next_state = RUN; endcase" 2
          [SyntaxNode.mk "case_item" "IDLE: next_state = RUN;" 3 []])
        (some "always_comb begin next_state = state; case (state) IDLE: next_state = RUN; endcase end")
        "state" "next_state" ["IDLE", "RUN"] SourceBlock.alwaysComb).1.filter
      (fun t => t.isImplicit)).length =
    (["IDLE", "RUN"] : List String).length -
      ((["IDLE", "RUN"] : List String).filter (fun s =>
        (extractTransitions
          (SyntaxNode.mk "case_statement" "case (state) IDLE: next_state = RUN; endcase" 2
            [SyntaxNode.mk "case_item" "IDLE: next_state = RUN;" 3 []])
          (some "always_comb begin next_state = state; case (state) IDLE: next_state = RUN; endcase end")
          "state" "next_state" ["IDLE", "RUN"] SourceBlock.alwaysComb).1.any
          (fun t => !t.isImplicit && t.from_ == s))).length :=
  (c2_implicit_selfloop_completeness
    (SyntaxNode.mk "case_statement" "case (state) IDLE: next_state = RUN; endcase" 2
      [SyntaxNode.mk "case_item" "IDLE: next_state = RUN;" 3 []])
    (some "always_comb begin next_state = state; case (state) IDLE: next_state = RUN; endcase end")
    "state" "next_state" ["IDLE", "RUN"] SourceBlock.alwaysComb
    (by decide) (by decide) (by decide)).2.2.2

/-- `strToList` and `strOfList` are mutually inverse (list side). -/
theorem strToList_strOfList (l : List Char) : strToList (strOfList l) = l := rfl

/-- `strToList` and `strOfList` are mutually inverse (string side). -/
theorem strOfList_strToList (s : String) : strOfList (strToList s) = s := rfl

/-- `strToList` distributes over string concatenation. -/
theorem strToList_append (a b : String) : strToList (a ++ b) = strToList a ++ strToList b :=
  String.data_append a b

/-- Identifier characters are not whitespace. -/
theorem identChar_not_ws (c : Char) (h : isIdentChar c = true) : isWsChar c = false := by
  by_contra hws
  rw [Bool.not_eq_false, isWsChar] at hws
  rcases Bool.or_eq_true_iff.mp hws with h1 | h1
  · rcases Bool.or_eq_true_iff.mp h1 with h2 | h2
    · rcases Bool.or_eq_true_iff.mp h2 with h3 | h3
      · rw [beq_iff_eq.mp h3] at h
        exact Bool.noConfusion h
      · rw [beq_iff_eq.mp h3] at h
        exact Bool.noConfusion h
    · rw [beq_iff_eq.mp h2] at h
      exact Bool.noConfusion h
  · rw [beq_iff_eq.mp h1] at h
    exact Bool.noConfusion h

/-- An identifier character differs from any non-identifier character. -/
theorem identChar_ne (c d : Char) (h : isIdentChar c = true) (hd : isIdentChar d = false) :
    (d == c) = false := by
  rw [beq_eq_false_iff_ne]
  intro he
  rw [← he] at h
  rw [h] at hd
  exact Bool.noConfusion hd

/-- Whitespace stripping from the left stops at the first
non-whitespace character, wherever it sits. -/
theorem dropWhile_ws_append (d : Char) (ds : List Char) (hd : isWsChar d = false) :
    ∀ l : List Char, ∃ w, (l ++ d :: ds).dropWhile isWsChar = w ++ d :: ds := by
  intro l
  induction l with
  | nil =>
    refine ⟨[], ?_⟩
    rw [List.nil_append, List.dropWhile_cons_of_neg (by rw [hd]; exact Bool.noConfusion)]
  | cons a l ih =>
    by_cases ha : isWsChar a = true
    · rcases ih with ⟨w, hw⟩
      refine ⟨w, ?_⟩
      rw [List.cons_append, List.dropWhile_cons_of_pos ha]
      exact hw
    · refine ⟨a :: l, ?_⟩
      rw [List.cons_append, List.dropWhile_cons_of_neg (by rw [Bool.not_eq_true] at ha; rw [ha]; exact Bool.noConfusion)]

/-- Trimming skips one leading whitespace character. -/
theorem trimChars_cons_ws (c : Char) (cs : List Char) (h : isWsChar c = true) :
    trimChars (c :: cs) = trimChars cs := by
  unfold trimChars
  rw [List.dropWhile_cons_of_pos h]

/-- Trimming a list that starts and ends with identifier characters is
the identity. -/
theorem trimChars_of_ident_ends (x : List Char) (hne : x ≠ [])
    (hhead : ∀ h, x.head? = some h → isIdentChar h = true)
    (hlast : ∀ h, x.getLast? = some h → isIdentChar h = true) :
    trimChars x = x := by
  cases x with
  | nil => exact absurd rfl hne
  | cons c cs =>
    have hc : isIdentChar c = true := hhead c rfl
    unfold trimChars
    rw [List.dropWhile_cons_of_neg (by rw [identChar_not_ws c hc]; exact Bool.noConfusion)]
    rcases hrev : (c :: cs).reverse with _ | ⟨rc, rl⟩
    · exact absurd (List.reverse_eq_nil_iff.mp hrev) (List.cons_ne_nil c cs)
    · have hrc : isIdentChar rc = true := by
        apply hlast
        rw [List.getLast?_eq_head?_reverse, hrev]
        rfl
      have hnw : ¬isWsChar rc = true := by
        rw [identChar_not_ws rc hrc]
        simp
      rw [List.dropWhile_cons_of_neg hnw, ← hrev, List.reverse_reverse]

/-- Trimming a list that starts with an identifier character and has a
colon-anchored tail keeps the part before the colon intact. -/
theorem trimChars_colon_tail (x z : List Char) (c : Char) (hc : isIdentChar c = true) :
    ∃ w, trimChars (c :: x ++ ':' :: z) = c :: x ++ ':' :: w := by
  unfold trimChars
  rw [List.cons_append,
    List.dropWhile_cons_of_neg (by rw [identChar_not_ws c hc]; exact Bool.noConfusion),
    ← List.cons_append]
  have hrev : (c :: x ++ ':' :: z).reverse = z.reverse ++ ':' :: (c :: x).reverse := by
    rw [List.reverse_append, List.reverse_cons, List.append_assoc]
    rfl
  rcases dropWhile_ws_append ':' (c :: x).reverse (by decide) z.reverse with ⟨w, hw⟩
  rw [hrev, hw, List.reverse_append, List.reverse_cons, List.reverse_reverse]
  exact ⟨w.reverse, by rw [List.append_assoc]; rfl⟩

/-- The arrow separator matches itself. -/
theorem matchLit_sep (r : List Char) :
    matchLit [' ', '-', '-', '>', ' '] (' ' :: '-' :: '-' :: '>' :: ' ' :: r) = some r := by
  simp [matchLit]

/-- The arrow separator never matches at an identifier character. -/
theorem matchLit_sep_ident (c : Char) (hc : isIdentChar c = true) (cs : List Char) :
    matchLit [' ', '-', '-', '>', ' '] (c :: cs) = none := by
  unfold matchLit
  rw [identChar_ne c ' ' hc (by decide)]
  rfl

/-- On `IDENT --> rest` input the first arrow separator occurrence sits
right after the identifier. -/
theorem indexOfSub_ident (f : List Char) (hf : ∀ c ∈ f, isIdentChar c = true)
    (r : List Char) :
    indexOfSub [' ', '-', '-', '>', ' '] (f ++ ' ' :: '-' :: '-' :: '>' :: ' ' :: r) =
      some f.length := by
  induction f with
  | nil =>
    rw [List.nil_append, indexOfSub, matchLit_sep]
    rfl
  | cons c f ih =>
    have hc := hf c (List.mem_cons_self c f)
    rw [List.cons_append, indexOfSub, matchLit_sep_ident c hc,
      ih (fun x hx => hf x (List.mem_cons_of_mem c hx))]
    rfl

/-- `takeWhile` below a colon keeps a whole identifier. -/
theorem takeWhile_ident_all (tc : List Char) (htc : ∀ c ∈ tc, isIdentChar c = true) :
    tc.takeWhile (fun c => c != ':') = tc := by
  induction tc with
  | nil => rfl
  | cons c t ih =>
    have hc := htc c (List.mem_cons_self c t)
    have hne : (c != ':') = true := by
      have h0 : (c == ':') = false := beq_eq_false_iff_ne.mpr (fun he => by
        rw [he] at hc
        exact absurd hc (by decide))
      simp [bne, h0]
    simp only [List.takeWhile_cons, hne, if_true]
    rw [ih (fun x hx => htc x (List.mem_cons_of_mem c hx))]

/-- `takeWhile` stops exactly at the colon after an identifier. -/
theorem takeWhile_upto_colon (tc : List Char) (htc : ∀ c ∈ tc, isIdentChar c = true)
    (z : List Char) :
    (tc ++ ':' :: z).takeWhile (fun c => c != ':') = tc := by
  induction tc with
  | nil =>
    rw [List.nil_append]
    simp only [List.takeWhile_cons]
    rfl
  | cons c t ih =>
    have hc := htc c (List.mem_cons_self c t)
    have hne : (c != ':') = true := by
      have h0 : (c == ':') = false := beq_eq_false_iff_ne.mpr (fun he => by
        rw [he] at hc
        exact absurd hc (by decide))
      simp [bne, h0]
    rw [List.cons_append]
    simp only [List.takeWhile_cons, hne, if_true]
    rw [ih (fun x hx => htc x (List.mem_cons_of_mem c hx))]

/-- Splitting a newline-free list at newlines returns the single line. -/
theorem splitOnChar_no_sep (l : List Char) (h : '\n' ∉ l) :
    splitOnChar '\n' l = [l] := by
  induction l with
  | nil => rfl
  | cons c cs ih =>
    have hc : (c == '\n') = false :=
      beq_eq_false_iff_ne.mpr (fun he => h (he ▸ List.mem_cons_self c cs))
    simp only [splitOnChar, hc, ih (fun hm => h (List.mem_cons_of_mem c hm))]
    rfl

/-- Splitting at the first newline severs the first line. -/
theorem splitOnChar_append_sep (l : List Char) (h : '\n' ∉ l) (r : List Char) :
    splitOnChar '\n' (l ++ '\n' :: r) = l :: splitOnChar '\n' r := by
  induction l with
  | nil =>
    rw [List.nil_append]
    simp [splitOnChar]
  | cons c cs ih =>
    have hc : (c == '\n') = false :=
      beq_eq_false_iff_ne.mpr (fun he => h (he ▸ List.mem_cons_self c cs))
    rw [List.cons_append]
    simp only [splitOnChar, hc, ih (fun hm => h (List.mem_cons_of_mem c hm))]
    rfl

/-- `splitOnChar` is a left inverse of `joinNL` on nonempty lists of
newline-free lines. -/
theorem splitOnChar_joinNL :
    ∀ (css : List (List Char)), css ≠ [] → (∀ cs ∈ css, '\n' ∉ cs) →
      splitOnChar '\n' (joinNL css) = css := by
  intro css
  induction css with
  | nil => intro hne _; exact absurd rfl hne
  | cons l rest ih =>
    intro _ hnl
    cases rest with
    | nil =>
      rw [joinNL]
      exact splitOnChar_no_sep l (hnl l (List.mem_cons_self l []))
    | cons l2 rest2 =>
      rw [joinNL, splitOnChar_append_sep l (hnl l (List.mem_cons_self l (l2 :: rest2))),
        ih (List.cons_ne_nil l2 rest2) (fun cs hcs => hnl cs (List.mem_cons_of_mem l hcs))]

/-- `splitLines` is a left inverse of `joinLines` on nonempty lists of
newline-free lines. -/
theorem splitLines_joinLines (lines : List String) (hne : lines ≠ [])
    (hnl : ∀ s ∈ lines, '\n' ∉ strToList s) :
    splitLines (joinLines lines) = lines := by
  unfold splitLines joinLines
  rw [strToList_strOfList,
    splitOnChar_joinNL (lines.map strToList)
      (fun hmap => hne (List.map_eq_nil_iff.mp hmap))
      (fun cs hcs => by
        rcases List.mem_map.mp hcs with ⟨s, hs, rfl⟩
        exact hnl s hs),
    List.map_map,
    show lines.map (strOfList ∘ strToList) = lines.map id from
      List.map_congr_left (fun s _ => strOfList_strToList s),
    List.map_id]

/-- A literal match anywhere in the tail makes `containsSub` true. -/
theorem containsSub_suffix (pat r : List Char) (h : (matchLit pat r).isSome = true) :
    ∀ l : List Char, containsSub pat (l ++ r) = true := by
  intro l
  induction l with
  | nil =>
    rw [List.nil_append]
    cases r with
    | nil => rw [containsSub]; exact h
    | cons c cs => rw [containsSub, h, Bool.true_or]
  | cons a l ih =>
    rw [List.cons_append, containsSub, ih, Bool.or_true]

/-- A line starting with an identifier character is not the `[*]` start
arrow. -/
theorem headIs_bracket_ident (c : Char) (hc : isIdentChar c = true) (cs : List Char) :
    headIs ['[', '*', ']'] (c :: cs) = false := by
  unfold headIs matchLit
  rw [identChar_ne c '[' hc (by decide)]
  rfl

/-- Taking a prefix length returns the prefix. -/
theorem take_append_len (f z : List Char) : (f ++ z).take f.length = f := by
  induction f with
  | nil => rfl
  | cons c f ih =>
    rw [List.cons_append, List.length_cons, List.take_succ_cons, ih]

/-- Dropping the prefix and the five separator characters leaves the
tail. -/
theorem drop_append_five (f z : List Char) :
    (f ++ ' ' :: '-' :: '-' :: '>' :: ' ' :: z).drop (f.length + 5) = z := by
  induction f with
  | nil => rfl
  | cons c f ih =>
    have h : (c :: f).length + 5 = (f.length + 5) + 1 := by
      rw [List.length_cons]
    rw [List.cons_append, h, List.drop_succ_cons, ih]

/-- `parseTransitionLine` unfolded over an explicit character list. -/
theorem parseTransitionLine_strOfList (x : List Char) :
    parseTransitionLine (strOfList x) =
      (if headIs ['[', '*', ']'] (trimChars x) then none
       else
        match indexOfSub [' ', '-', '-', '>', ' '] (trimChars x) with
        | none => none
        | some i =>
          some (strOfList ((trimChars x).take i),
            strOfList ((((trimChars x).drop (i + 5)).takeWhile (fun c => c != ':'))))) := rfl

/-- Trimming a rendered transition line with no label leaves it
unchanged. -/
theorem trim_line_no_colon (fc : Char) (fr tc : List Char)
    (hfc : isIdentChar fc = true) (htc : ∀ c ∈ tc, isIdentChar c = true) (htcne : tc ≠ []) :
    trimChars (' ' :: ' ' :: ' ' :: ' ' ::
        ((fc :: fr) ++ ' ' :: '-' :: '-' :: '>' :: ' ' :: tc)) =
      (fc :: fr) ++ ' ' :: '-' :: '-' :: '>' :: ' ' :: tc := by
  rw [trimChars_cons_ws _ _ (by decide), trimChars_cons_ws _ _ (by decide),
    trimChars_cons_ws _ _ (by decide), trimChars_cons_ws _ _ (by decide)]
  apply trimChars_of_ident_ends
  · simp
  · intro h hh
    rw [List.cons_append, List.head?_cons, Option.some.injEq] at hh
    rw [← hh]
    exact hfc
  · intro h hh
    rcases (List.eq_nil_or_concat tc).resolve_left htcne with ⟨L, b, rfl⟩
    have hb : isIdentChar b = true := htc b (by simp)
    have hlast : ((fc :: fr) ++ ' ' :: '-' :: '-' :: '>' :: ' ' :: L.concat b).getLast? =
        some b := by
      rw [show (fc :: fr) ++ ' ' :: '-' :: '-' :: '>' :: ' ' :: L.concat b =
        ((fc :: fr) ++ ' ' :: '-' :: '-' :: '>' :: ' ' :: L) ++ [b] from by simp]
      exact List.getLast?_concat _
    rw [hlast, Option.some.injEq] at hh
    rw [← hh]
    exact hb

/-- Trimming a rendered transition line with a label keeps everything
up to the colon. -/
theorem trim_line_colon (fc : Char) (fr tc z : List Char) (hfc : isIdentChar fc = true) :
    ∃ w, trimChars (' ' :: ' ' :: ' ' :: ' ' ::
        ((fc :: fr) ++ ' ' :: '-' :: '-' :: '>' :: ' ' :: (tc ++ ':' :: z))) =
      (fc :: fr) ++ ' ' :: '-' :: '-' :: '>' :: ' ' :: (tc ++ ':' :: w) := by
  rw [trimChars_cons_ws _ _ (by decide), trimChars_cons_ws _ _ (by decide),
    trimChars_cons_ws _ _ (by decide), trimChars_cons_ws _ _ (by decide)]
  rw [show (fc :: fr) ++ ' ' :: '-' :: '-' :: '>' :: ' ' :: (tc ++ ':' :: z) =
    fc :: (fr ++ ' ' :: '-' :: '-' :: '>' :: ' ' :: tc) ++ ':' :: z from by simp]
  rcases trimChars_colon_tail (fr ++ ' ' :: '-' :: '-' :: '>' :: ' ' :: tc) z fc hfc with ⟨w, hw⟩
  refine ⟨w, ?_⟩
  rw [hw]
  simp

/-- Parsing a rendered transition line recovers the endpoints. -/
theorem parseTransitionLine_eq (f tc rest : List Char)
    (hf : ∀ c ∈ f, isIdentChar c = true) (hfne : f ≠ [])
    (htc : ∀ c ∈ tc, isIdentChar c = true) (htcne : tc ≠ [])
    (hrest : rest = [] ∨ ∃ z, rest = ':' :: z) :
    parseTransitionLine (strOfList (' ' :: ' ' :: ' ' :: ' ' ::
        (f ++ ' ' :: '-' :: '-' :: '>' :: ' ' :: (tc ++ rest)))) =
      some (strOfList f, strOfList tc) := by
  obtain ⟨fc, fr, rfl⟩ : ∃ fc fr, f = fc :: fr := by
    cases f with
    | nil => exact absurd rfl hfne
    | cons a b => exact ⟨a, b, rfl⟩
  have hfc : isIdentChar fc = true := hf fc (List.mem_cons_self fc fr)
  rw [parseTransitionLine_strOfList]
  rcases hrest with rfl | ⟨z, rfl⟩
  · rw [List.append_nil, trim_line_no_colon fc fr tc hfc htc htcne]
    have hhead : headIs ['[', '*', ']']
        ((fc :: fr) ++ ' ' :: '-' :: '-' :: '>' :: ' ' :: tc) = false := by
      rw [List.cons_append]
      exact headIs_bracket_ident fc hfc _
    rw [hhead, if_neg (by simp), indexOfSub_ident (fc :: fr) hf tc]
    dsimp only
    rw [take_append_len, drop_append_five, takeWhile_ident_all tc htc]
  · rcases trim_line_colon fc fr tc z hfc with ⟨w, hw⟩
    rw [hw]
    have hhead : headIs ['[', '*', ']']
        ((fc :: fr) ++ ' ' :: '-' :: '-' :: '>' :: ' ' :: (tc ++ ':' :: w)) = false := by
      rw [List.cons_append]
      exact headIs_bracket_ident fc hfc _
    rw [hhead, if_neg (by simp), indexOfSub_ident (fc :: fr) hf (tc ++ ':' :: w)]
    dsimp only
    rw [take_append_len, drop_append_five, takeWhile_upto_colon tc htc w]

/-- Trimming a list with non-whitespace first and last characters is
the identity. -/
theorem trimChars_of_nonws_ends (x : List Char) (hne : x ≠ [])
    (hhead : ∀ h, x.head? = some h → isWsChar h = false)
    (hlast : ∀ h, x.getLast? = some h → isWsChar h = false) :
    trimChars x = x := by
  cases x with
  | nil => exact absurd rfl hne
  | cons c cs =>
    have hc : isWsChar c = false := hhead c rfl
    unfold trimChars
    rw [List.dropWhile_cons_of_neg (by rw [hc]; exact Bool.noConfusion)]
    rcases hrev : (c :: cs).reverse with _ | ⟨rc, rl⟩
    · exact absurd (List.reverse_eq_nil_iff.mp hrev) (List.cons_ne_nil c cs)
    · have hrc : isWsChar rc = false := by
        apply hlast
        rw [List.getLast?_eq_head?_reverse, hrev]
        rfl
      have hnw : ¬isWsChar rc = true := by
        rw [hrc]
        simp
      rw [List.dropWhile_cons_of_neg hnw, ← hrev, List.reverse_reverse]

/-- Facts about the rendered reset arrow line: it parses as no
transition, holds no newline, and contains the arrow separator. -/
theorem reset_line_facts (r : String) (hrne : strToList r ≠ [])
    (hri : ∀ c ∈ strToList r, isIdentChar c = true) :
    parseTransitionLine ("    [*] --> " ++ r) = none ∧
    '\n' ∉ strToList ("    [*] --> " ++ r) ∧
    containsSub [' ', '-', '-', '>', ' ']
      (strToList (strTrim ("    [*] --> " ++ r))) = true := by
  have hx : strToList ("    [*] --> " ++ r) =
      ' ' :: ' ' :: ' ' :: ' ' ::
        ('[' :: '*' :: ']' :: ' ' :: '-' :: '-' :: '>' :: ' ' :: strToList r) := by
    rw [strToList_append]
    rfl
  have htrim : trimChars (strToList ("    [*] --> " ++ r)) =
      '[' :: '*' :: ']' :: ' ' :: '-' :: '-' :: '>' :: ' ' :: strToList r := by
    rw [hx, trimChars_cons_ws _ _ (by decide), trimChars_cons_ws _ _ (by decide),
      trimChars_cons_ws _ _ (by decide), trimChars_cons_ws _ _ (by decide)]
    apply trimChars_of_nonws_ends
    · exact List.cons_ne_nil _ _
    · intro h hh
      rw [List.head?_cons, Option.some.injEq] at hh
      rw [← hh]
      rfl
    · intro h hh
      rcases (List.eq_nil_or_concat (strToList r)).resolve_left hrne with ⟨L, b, hr⟩
      have hb : isIdentChar b = true := by
        apply hri
        rw [hr, List.concat_eq_append]
        simp
      rw [hr] at hh
      rw [show '[' :: '*' :: ']' :: ' ' :: '-' :: '-' :: '>' :: ' ' :: L.concat b =
        ('[' :: '*' :: ']' :: ' ' :: '-' :: '-' :: '>' :: ' ' :: L) ++ [b] from by simp] at hh
      rw [List.getLast?_concat, Option.some.injEq] at hh
      rw [← hh]
      exact identChar_not_ws b hb
  refine ⟨?_, ?_, ?_⟩
  · rw [← strOfList_strToList ("    [*] --> " ++ r), parseTransitionLine_strOfList, htrim]
    rw [show headIs ['[', '*', ']']
        ('[' :: '*' :: ']' :: ' ' :: '-' :: '-' :: '>' :: ' ' :: strToList r) = true from rfl]
    rfl
  · rw [hx]
    intro hmem
    simp only [List.mem_cons] at hmem
    rcases hmem with h | h | h | h | h | h | h | h | h | h | h | h | h
    all_goals first
      | exact Char.noConfusion h
      | exact absurd (hri _ h) (by decide)
      | exact absurd h (by decide)
  · rw [show strToList (strTrim ("    [*] --> " ++ r)) =
      trimChars (strToList ("    [*] --> " ++ r)) from rfl, htrim]
    exact containsSub_suffix _ _ (by rw [matchLit_sep]; rfl) ['[', '*', ']']

/-- Rendered transition line under default options, no guard. -/
theorem gtl_none (t : FSMTransition) (h : t.condition = none) :
    generateTransitionLine t defaultMermaidOptions = t.from_ ++ " --> " ++ t.to_ := by
  simp [generateTransitionLine, defaultMermaidOptions, h]

/-- Rendered transition line under default options, empty guard. -/
theorem gtl_some_empty (t : FSMTransition) (h : t.condition = some "") :
    generateTransitionLine t defaultMermaidOptions = t.from_ ++ " --> " ++ t.to_ := by
  simp [generateTransitionLine, defaultMermaidOptions, h]

/-- Rendered transition line under default options, nonempty guard. -/
theorem gtl_some (t : FSMTransition) (c : String) (h : t.condition = some c)
    (hce : (c == "") = false) :
    generateTransitionLine t defaultMermaidOptions =
      t.from_ ++ " --> " ++ t.to_ ++ ": " ++ c := by
  simp [generateTransitionLine, defaultMermaidOptions, h, hce]
  rfl

/-- Facts about a rendered transition line under default options: it
parses back to its endpoints, holds no newline, and contains the arrow
separator after trimming. -/
theorem tline_facts (t : FSMTransition)
    (hfne : strToList t.from_ ≠ []) (hfi : ∀ c ∈ strToList t.from_, isIdentChar c = true)
    (htne : strToList t.to_ ≠ []) (hti : ∀ c ∈ strToList t.to_, isIdentChar c = true)
    (hcnl : ∀ c, t.condition = some c → '\n' ∉ strToList c) :
    parseTransitionLine ("    " ++ generateTransitionLine t defaultMermaidOptions) =
      some (t.from_, t.to_) ∧
    '\n' ∉ strToList ("    " ++ generateTransitionLine t defaultMermaidOptions) ∧
    containsSub [' ', '-', '-', '>', ' ']
      (strToList (strTrim ("    " ++ generateTransitionLine t defaultMermaidOptions))) =
      true := by
  have hcore : ∃ rest, (rest = [] ∨ ∃ z, rest = ':' :: z) ∧
      (∀ ch ∈ rest, ch ≠ '\n') ∧
      strToList ("    " ++ generateTransitionLine t defaultMermaidOptions) =
        ' ' :: ' ' :: ' ' :: ' ' ::
          (strToList t.from_ ++ ' ' :: '-' :: '-' :: '>' :: ' ' ::
            (strToList t.to_ ++ rest)) := by
    rcases hc : t.condition with _ | c
    · refine ⟨[], Or.inl rfl, by simp, ?_⟩
      rw [gtl_none t hc, strToList_append, strToList_append, strToList_append,
        List.append_nil,
        show strToList "    " = [' ', ' ', ' ', ' '] from rfl,
        show strToList " --> " = [' ', '-', '-', '>', ' '] from rfl]
      simp
    · by_cases hce : (c == "") = true
      · refine ⟨[], Or.inl rfl, by simp, ?_⟩
        rw [gtl_some_empty t (by rw [hc, beq_iff_eq.mp hce]), strToList_append,
          strToList_append, strToList_append, List.append_nil,
          show strToList "    " = [' ', ' ', ' ', ' '] from rfl,
          show strToList " --> " = [' ', '-', '-', '>', ' '] from rfl]
        simp
      · refine ⟨':' :: ' ' :: strToList c, Or.inr ⟨_, rfl⟩, ?_, ?_⟩
        · intro ch hch
          rcases List.mem_cons.mp hch with rfl | hch
          · exact fun he => absurd he (by decide)
          · rcases List.mem_cons.mp hch with rfl | hch
            · exact fun he => absurd he (by decide)
            · exact fun he => hcnl c hc (he ▸ hch)
        · rw [gtl_some t c hc (Bool.not_eq_true _ ▸ hce), strToList_append,
            strToList_append, strToList_append, strToList_append, strToList_append,
            show strToList "    " = [' ', ' ', ' ', ' '] from rfl,
            show strToList " --> " = [' ', '-', '-', '>', ' '] from rfl,
            show strToList ": " = [':', ' '] from rfl]
          simp
  rcases hcore with ⟨rest, hrest, hrnl, hlist⟩
  refine ⟨?_, ?_, ?_⟩
  · rw [← strOfList_strToList ("    " ++ generateTransitionLine t defaultMermaidOptions),
      hlist]
    exact parseTransitionLine_eq _ _ rest hfi hfne hti htne hrest
  · rw [hlist]
    intro hmem
    simp only [List.mem_cons] at hmem
    rcases hmem with h | h | h | h | hmem
    · exact absurd h (by decide)
    · exact absurd h (by decide)
    · exact absurd h (by decide)
    · exact absurd h (by decide)
    · rcases List.mem_append.mp hmem with h | h
      · exact absurd (hfi _ h) (by decide)
      · simp only [List.mem_cons] at h
        rcases h with h | h | h | h | h | hmem2
        · exact absurd h (by decide)
        · exact absurd h (by decide)
        · exact absurd h (by decide)
        · exact absurd h (by decide)
        · exact absurd h (by decide)
        · rcases List.mem_append.mp hmem2 with h | h
          · exact absurd (hti _ h) (by decide)
          · exact hrnl _ h rfl
  · rw [show strToList (strTrim ("    " ++ generateTransitionLine t defaultMermaidOptions)) =
      trimChars (strToList ("    " ++ generateTransitionLine t defaultMermaidOptions))
      from rfl, hlist]
    obtain ⟨fc, fr, hf⟩ : ∃ fc fr, strToList t.from_ = fc :: fr := by
      cases hx : strToList t.from_ with
      | nil => exact absurd hx hfne
      | cons a b => exact ⟨a, b, rfl⟩
    have hfc : isIdentChar fc = true := hfi fc (by rw [hf]; exact List.mem_cons_self fc fr)
    rw [hf]
    rcases hrest with rfl | ⟨z, rfl⟩
    · rw [List.append_nil, trim_line_no_colon fc fr (strToList t.to_) hfc hti htne]
      exact containsSub_suffix _ _ (by rw [matchLit_sep]; rfl) (fc :: fr)
    · rcases trim_line_colon fc fr (strToList t.to_) z hfc with ⟨w, hw⟩
      rw [hw]
      exact containsSub_suffix _ _ (by rw [matchLit_sep]; rfl) (fc :: fr)

/-- Under default options every transition is rendered, in order. -/
theorem generateTransitions_default (fsm : FSM) :
    generateTransitions fsm defaultMermaidOptions =
      fsm.transitions.map
        (fun t => "    " ++ generateTransitionLine t defaultMermaidOptions) := by
  unfold generateTransitions
  suffices h : ∀ (l : List FSMTransition) (acc : List String),
      l.foldl (fun lines transition =>
        if transition.isSelfLoop && !defaultMermaidOptions.showSelfLoops then lines
        else if transition.isImplicit && !defaultMermaidOptions.showSelfLoops then lines
        else lines ++ ["    " ++ generateTransitionLine transition defaultMermaidOptions])
        acc =
      acc ++ l.map (fun t => "    " ++ generateTransitionLine t defaultMermaidOptions) by
    rw [h fsm.transitions []]
    rfl
  intro l
  induction l with
  | nil => intro acc; simp
  | cons t rest ih =>
    intro acc
    rw [List.foldl_cons]
    have h1 : (t.isSelfLoop && !defaultMermaidOptions.showSelfLoops) = false := by
      rw [show defaultMermaidOptions.showSelfLoops = true from rfl]
      simp
    have h2 : (t.isImplicit && !defaultMermaidOptions.showSelfLoops) = false := by
      rw [show defaultMermaidOptions.showSelfLoops = true from rfl]
      simp
    rw [h1, h2]
    simp only [Bool.false_eq_true, if_false]
    rw [ih (acc ++ ["    " ++ generateTransitionLine t defaultMermaidOptions])]
    simp

/-- The generated diagram under default options, as an explicit line
list. -/
theorem generateMermaid_default (fsm : FSM) :
    generateMermaid fsm defaultMermaidOptions =
      joinLines (["stateDiagram-v2", "    direction TB"] ++
        (match fsm.resetState with
         | some r => ["    [*] --> " ++ r]
         | none => []) ++
        ([""] ++ fsm.transitions.map
          (fun t => "    " ++ generateTransitionLine t defaultMermaidOptions))) := by
  unfold generateMermaid
  rw [generateTransitions_default]
  rw [show defaultMermaidOptions.showOutputs = false from rfl]
  simp only [Bool.false_eq_true, if_false, List.append_nil]
  rw [show ("    direction " ++ defaultMermaidOptions.direction) = "    direction TB"
    from rfl]

/-- `filterMap` with everywhere-`some` values is a `map`. -/
theorem filterMap_all_some {α β : Type} (f : α → Option β) (h : α → β) :
    ∀ l : List α, (∀ x ∈ l, f x = some (h x)) → l.filterMap f = l.map h := by
  intro l
  induction l with
  | nil => intro _; rfl
  | cons a l ih =>
    intro hall
    rw [List.filterMap_cons, hall a (List.mem_cons_self a l), List.map_cons,
      ih (fun x hx => hall x (List.mem_cons_of_mem a hx))]

/-- C9 (amended): with the default rendering options, the transition
count re-derived from the generated text always matches the number of
transitions, and the state count matches provided every state occurs on
some transition, endpoints lie in the state list, state names are
distinct nonempty identifiers, the reset state (if any) is such an
identifier, and guards contain no newline. -/
theorem c9_roundtrip_counts (fsm : FSM)
    (hident : ∀ st ∈ fsm.states, strToList st.name ≠ [] ∧
      ∀ c ∈ strToList st.name, isIdentChar c = true)
    (hnd : (fsm.states.map (fun st => st.name)).Nodup)
    (hend : ∀ t ∈ fsm.transitions, t.from_ ∈ fsm.states.map (fun st => st.name) ∧
      t.to_ ∈ fsm.states.map (fun st => st.name))
    (hcover : ∀ st ∈ fsm.states, ∃ t ∈ fsm.transitions,
      t.from_ = st.name ∨ t.to_ = st.name)
    (hcond : fsm.transitions.all (fun t =>
      match t.condition with
      | some c => !((strToList c).contains '\n')
      | none => true) = true)
    (hreset : (match fsm.resetState with
      | some r => !(strToList r).isEmpty && (strToList r).all isIdentChar
      | none => true) = true) :
    rederivedTransitionCount (generateMermaid fsm defaultMermaidOptions) =
      fsm.transitions.length ∧
    rederivedStateCount (generateMermaid fsm defaultMermaidOptions) =
      fsm.states.length := by
  have hfl : ∀ t ∈ fsm.transitions,
      (strToList t.from_ ≠ [] ∧ ∀ c ∈ strToList t.from_, isIdentChar c = true) ∧
      (strToList t.to_ ≠ [] ∧ ∀ c ∈ strToList t.to_, isIdentChar c = true) := by
    intro t ht
    constructor
    · rcases List.mem_map.mp (hend t ht).1 with ⟨st, hst, he⟩
      exact he ▸ hident st hst
    · rcases List.mem_map.mp (hend t ht).2 with ⟨st, hst, he⟩
      exact he ▸ hident st hst
  have hcnl : ∀ t ∈ fsm.transitions, ∀ c, t.condition = some c → '\n' ∉ strToList c := by
    intro t ht c hc hmem
    have hall := List.all_eq_true.mp hcond t ht
    rw [hc] at hall
    dsimp only at hall
    have hcontains : (strToList c).contains '\n' = true := List.elem_iff.mpr hmem
    rw [hcontains] at hall
    exact Bool.noConfusion hall
  have htl : ∀ t ∈ fsm.transitions,
      parseTransitionLine ("    " ++ generateTransitionLine t defaultMermaidOptions) =
        some (t.from_, t.to_) ∧
      '\n' ∉ strToList ("    " ++ generateTransitionLine t defaultMermaidOptions) ∧
      containsSub [' ', '-', '-', '>', ' ']
        (strToList (strTrim ("    " ++ generateTransitionLine t defaultMermaidOptions))) =
        true :=
    fun t ht => tline_facts t (hfl t ht).1.1 (hfl t ht).1.2 (hfl t ht).2.1 (hfl t ht).2.2
      (hcnl t ht)
  have hresetfacts : ∀ line ∈ (match fsm.resetState with
      | some r => ["    [*] --> " ++ r]
      | none => ([] : List String)),
      parseTransitionLine line = none ∧ '\n' ∉ strToList line ∧
      containsSub [' ', '-', '-', '>', ' '] (strToList (strTrim line)) = true := by
    rcases hres : fsm.resetState with _ | r
    · intro line hline
      simp at hline
    · intro line hline
      rw [List.mem_singleton] at hline
      subst hline
      rw [hres] at hreset
      dsimp only at hreset
      rw [Bool.and_eq_true] at hreset
      rcases hreset with ⟨h1, h2⟩
      have hrne : strToList r ≠ [] := by
        intro he
        rw [he] at h1
        exact Bool.noConfusion h1
      exact reset_line_facts r hrne (fun c hc => List.all_eq_true.mp h2 c hc)
  have hsplit : splitLines (generateMermaid fsm defaultMermaidOptions) =
      ["stateDiagram-v2", "    direction TB"] ++
        (match fsm.resetState with
         | some r => ["    [*] --> " ++ r]
         | none => []) ++
        ([""] ++ fsm.transitions.map
          (fun t => "    " ++ generateTransitionLine t defaultMermaidOptions)) := by
    rw [generateMermaid_default]
    apply splitLines_joinLines
    · simp
    · intro s hs
      rcases List.mem_append.mp hs with hs | hs
      · rcases List.mem_append.mp hs with hs | hs
        · rcases List.mem_cons.mp hs with rfl | hs
          · decide
          · rcases List.mem_cons.mp hs with rfl | hs
            · decide
            · exact absurd hs (List.not_mem_nil _)
        · exact (hresetfacts s hs).2.1
      · rcases List.mem_append.mp hs with hs | hs
        · rcases List.mem_cons.mp hs with rfl | hs
          · decide
          · exact absurd hs (List.not_mem_nil _)
        · rcases List.mem_map.mp hs with ⟨t, ht, rfl⟩
          exact (htl t ht).2.1
  have hpairs : rederivedTransitionPairs (generateMermaid fsm defaultMermaidOptions) =
      fsm.transitions.map (fun t => (t.from_, t.to_)) := by
    unfold rederivedTransitionPairs
    rw [hsplit, List.filterMap_append, List.filterMap_append, List.filterMap_append]
    rw [show (["stateDiagram-v2", "    direction TB"] : List String).filterMap
      parseTransitionLine = [] from by decide]
    have hM : (match fsm.resetState with
        | some r => ["    [*] --> " ++ r]
        | none => ([] : List String)).filterMap parseTransitionLine = [] := by
      rw [List.filterMap_eq_nil_iff]
      intro line hline
      exact (hresetfacts line hline).1
    rw [hM]
    rw [show ([""] : List String).filterMap parseTransitionLine = [] from by decide]
    rw [List.filterMap_map]
    rw [show parseTransitionLine ∘
        (fun t => "    " ++ generateTransitionLine t defaultMermaidOptions) =
      fun t => parseTransitionLine ("    " ++ generateTransitionLine t defaultMermaidOptions)
      from rfl]
    rw [filterMap_all_some _ (fun t => (t.from_, t.to_)) fsm.transitions
      (fun t ht => (htl t ht).1)]
    simp
  constructor
  · unfold rederivedTransitionCount
    rw [hpairs, List.length_map]
  · have hann : rederivedAnnotatedStates (generateMermaid fsm defaultMermaidOptions) =
        [] := by
      unfold rederivedAnnotatedStates
      rw [hsplit, List.filterMap_eq_nil_iff]
      intro line hline
      rcases List.mem_append.mp hline with h | h
      · rcases List.mem_append.mp h with h | h
        · rcases List.mem_cons.mp h with rfl | h
          · decide
          · rcases List.mem_cons.mp h with rfl | h
            · decide
            · exact absurd h (List.not_mem_nil _)
        · have hcs := (hresetfacts line h).2.2
          dsimp only
          rw [hcs]
          rfl
      · rcases List.mem_append.mp h with h | h
        · rcases List.mem_cons.mp h with rfl | h
          · decide
          · exact absurd h (List.not_mem_nil _)
        · rcases List.mem_map.mp h with ⟨t, ht, rfl⟩
          have hcs := (htl t ht).2.2
          dsimp only
          rw [hcs]
          rfl
    unfold rederivedStateCount rederivedStateNames
    rw [hann, List.append_nil, hpairs]
    rw [show (fsm.transitions.map (fun t => (t.from_, t.to_))).flatMap
        (fun p => [p.1, p.2]) =
      fsm.transitions.flatMap (fun t => [t.from_, t.to_]) from by
        rw [List.flatMap_map]]
    have hmemE : ∀ x, x ∈ fsm.transitions.flatMap (fun t => [t.from_, t.to_]) ↔
        x ∈ fsm.states.map (fun st => st.name) := by
      intro x
      constructor
      · intro hx
        rcases List.mem_flatMap.mp hx with ⟨t, ht, hx⟩
        rcases List.mem_cons.mp hx with rfl | hx
        · exact (hend t ht).1
        · rcases List.mem_cons.mp hx with rfl | hx
          · exact (hend t ht).2
          · exact absurd hx (List.not_mem_nil _)
      · intro hx
        rcases List.mem_map.mp hx with ⟨st, hst, rfl⟩
        rcases hcover st hst with ⟨t, ht, hor⟩
        apply List.mem_flatMap.mpr
        refine ⟨t, ht, ?_⟩
        rcases hor with h | h
        · rw [← h]
          exact List.mem_cons_self _ _
        · rw [← h]
          simp
    rw [← List.card_toFinset]
    have hfin : (fsm.transitions.flatMap (fun t => [t.from_, t.to_])).toFinset =
        (fsm.states.map (fun st => st.name)).toFinset := by
      apply Finset.ext
      intro x
      rw [List.mem_toFinset, List.mem_toFinset]
      exact hmemE x
    rw [hfin, List.toFinset_card_of_nodup hnd, List.length_map]

/-- C9 witness: the fully covered two-state FSM instantiates the
round-trip counts. -/
theorem c9_roundtrip_counts_witness :
    rederivedTransitionCount (generateMermaid c9GoodFsm defaultMermaidOptions) =
      c9GoodFsm.transitions.length ∧
    rederivedStateCount (generateMermaid c9GoodFsm defaultMermaidOptions) =
      c9GoodFsm.states.length :=
  c9_roundtrip_counts c9GoodFsm (by decide) (by decide) (by decide) (by decide)
    (by decide) (by decide)
